import Mathlib

/-!
# NanoClaw supervisor — verification of spec claims

Shallow embedding of the dispatch/lifecycle subsystem of the NanoClaw
supervisor (Telegram chat to container-agent broker), translated from the
TypeScript source, together with proofs settling the frozen claims about
the natural-language specification.

Conventions used throughout:
* JS strings are modelled as Lean `String`/`List Char`; the JS regexes used
  by the source only act on the ASCII range in ways relevant to the claims,
  so `\w`, `\s` and `toLowerCase` are modelled on that range (character
  classes are expressed through `Char.toNat` code points).
* ISO-8601 timestamps compare lexicographically exactly as they compare
  chronologically, so message timestamps are kept as `String` (mirroring the
  SQL comparisons in the source) while scheduler instants are `Nat`.
* SQLite tables are modelled as lists of rows; `INSERT OR REPLACE` deletes
  the conflicting row and appends the new one.
-/

/-! ## JS character-class helpers (ASCII range) -/

/-- JS `String.prototype.toLowerCase`, restricted to the ASCII range (the
only range whose lowercase image intersects the `\w` class kept by
`slugify`). `A`–`Z` are code points 65–90; adding 32 lowercases them. -/
def jsLowerChar (c : Char) : Char :=
  if 65 ≤ c.toNat ∧ c.toNat ≤ 90 then Char.ofNat (c.toNat + 32) else c

/-- JS regex class `\w` = `[A-Za-z0-9_]` (code points 97–122, 65–90, 48–57, 95). -/
def jsWordChar (c : Char) : Bool :=
  (97 ≤ c.toNat && c.toNat ≤ 122) || (65 ≤ c.toNat && c.toNat ≤ 90) ||
  (48 ≤ c.toNat && c.toNat ≤ 57) || c.toNat == 95

/-- JS regex class `\s` (ASCII part; the Unicode whitespace members are
outside `\w` and are dropped by the preceding filter pass of `slugify`). -/
def jsWsChar (c : Char) : Bool :=
  c.toNat == 32 || c.toNat == 9 || c.toNat == 10 || c.toNat == 13 ||
  c.toNat == 11 || c.toNat == 12

/-- One global-replace pass `/<p>+/g → r`: each maximal run of characters
satisfying `p` is replaced by the single character `r`.  The boolean records
whether the previous character belonged to a run. -/
def collapseRunsAux (p : Char → Bool) (r : Char) : Bool → List Char → List Char
  | _, [] => []
  | prev, c :: cs =>
    if p c then
      if prev then collapseRunsAux p r true cs
      else r :: collapseRunsAux p r true cs
    else c :: collapseRunsAux p r false cs

def collapseRuns (p : Char → Bool) (r : Char) (l : List Char) : List Char :=
  collapseRunsAux p r false l

/-- `.replace(/^-|-$/g, '')`: removes a single leading and a single trailing
hyphen (the source applies it after collapsing hyphen runs, so at most one
of each can be present). -/
def dropLeadHyphen (l : List Char) : List Char :=
  if l.head? = some '-' then l.tail else l

def dropTrailHyphen (l : List Char) : List Char :=
  if l.getLast? = some '-' then l.dropLast else l

/-- `slugify` from `src/config.ts`:
lowercase, drop `[^\w\s-]`, `\s+` → `-`, `-+` → `-`, trim a hyphen from each
end, truncate to 50 characters. -/
def slugify (s : String) : String :=
  let l₁ := s.data.map jsLowerChar
  let l₂ := l₁.filter (fun c => jsWordChar c || jsWsChar c || c = '-')
  let l₃ := collapseRuns jsWsChar '-' l₂
  let l₄ := collapseRuns (fun c => c = '-') '-' l₃
  let l₅ := dropTrailHyphen (dropLeadHyphen l₄)
  String.mk (l₅.take 50)

/-- The character set `[a-z0-9-]` named by the claim. -/
def claimSlugChar (c : Char) : Bool :=
  (97 ≤ c.toNat && c.toNat ≤ 122) || (48 ≤ c.toNat && c.toNat ≤ 57) || c.toNat == 45

/-- The character set actually produced by `slugify`: `[a-z0-9_-]`
(underscore is inside JS `\w` and survives every pass). -/
def slugOutChar (c : Char) : Bool :=
  (97 ≤ c.toNat && c.toNat ≤ 122) || (48 ≤ c.toNat && c.toNat ≤ 57) ||
  c.toNat == 95 || c.toNat == 45

/-! ### Facts about the slugify pipeline (claim C7) -/

theorem char_toNat_inj {a b : Char} (h : a.toNat = b.toNat) : a = b :=
  Char.eq_of_val_eq (UInt32.ext h)

theorem jsLowerChar_not_upper (c : Char) :
    ¬(65 ≤ (jsLowerChar c).toNat ∧ (jsLowerChar c).toNat ≤ 90) := by
  unfold jsLowerChar
  split
  · rename_i h
    have hv : Nat.isValidChar (c.toNat + 32) := by left; omega
    have he : (Char.ofNat (c.toNat + 32)).toNat = c.toNat + 32 := by
      unfold Char.ofNat
      split
      · rfl
      · rename_i hnv; exact absurd hv hnv
    omega
  · rename_i h; exact h

theorem collapseRunsAux_mem {p : Char → Bool} {r : Char} {l : List Char} {prev : Bool} {c : Char}
    (h : c ∈ collapseRunsAux p r prev l) : c = r ∨ (c ∈ l ∧ p c = false) := by
  induction l generalizing prev with
  | nil => simp [collapseRunsAux] at h
  | cons a as ih =>
    unfold collapseRunsAux at h
    by_cases hp : p a
    · simp only [hp, if_true] at h
      cases prev with
      | true =>
        rcases ih h with h1 | ⟨h2, h3⟩
        · exact Or.inl h1
        · exact Or.inr ⟨List.mem_cons_of_mem _ h2, h3⟩
      | false =>
        rcases List.mem_cons.mp h with h1 | h1
        · exact Or.inl h1
        · rcases ih h1 with h2 | ⟨h3, h4⟩
          · exact Or.inl h2
          · exact Or.inr ⟨List.mem_cons_of_mem _ h3, h4⟩
    · simp only [hp, if_false] at h
      rcases List.mem_cons.mp h with h1 | h1
      · subst h1; exact Or.inr ⟨List.mem_cons_self _ _, Bool.eq_false_iff.mpr hp⟩
      · rcases ih h1 with h2 | ⟨h3, h4⟩
        · exact Or.inl h2
        · exact Or.inr ⟨List.mem_cons_of_mem _ h3, h4⟩

theorem mem_dropLeadHyphen {l : List Char} {c : Char} (h : c ∈ dropLeadHyphen l) : c ∈ l := by
  unfold dropLeadHyphen at h
  split at h
  · cases l with
    | nil => simp at h
    | cons a t => exact List.mem_cons_of_mem _ h
  · exact h

theorem mem_dropTrailHyphen {l : List Char} {c : Char} (h : c ∈ dropTrailHyphen l) : c ∈ l := by
  unfold dropTrailHyphen at h
  split at h
  · rw [List.dropLast_eq_take] at h; exact List.mem_of_mem_take h
  · exact h

theorem slugOutChar_of_mem_slugify {s : String} {c : Char} (hc : c ∈ (slugify s).data) :
    slugOutChar c = true := by
  simp only [slugify] at hc
  have h5 := mem_dropLeadHyphen (mem_dropTrailHyphen (List.mem_of_mem_take hc))
  rcases collapseRunsAux_mem h5 with h4 | ⟨h4, hnh⟩
  · subst h4; decide
  · rcases collapseRunsAux_mem h4 with h3 | ⟨h3, hnw⟩
    · subst h3; decide
    · have h2 := List.mem_filter.mp h3
      rcases List.mem_map.mp h2.1 with ⟨c₀, _, hc₀⟩
      have hup := jsLowerChar_not_upper c₀
      rw [hc₀] at hup
      have hpred := h2.2
      simp only [Bool.or_eq_true, decide_eq_true_eq] at hpred
      rcases hpred with (hw | hws) | hh
      · simp only [jsWordChar, Bool.or_eq_true, Bool.and_eq_true, decide_eq_true_eq,
          Nat.beq_eq_true_eq] at hw
        simp only [slugOutChar, Bool.or_eq_true, Bool.and_eq_true, decide_eq_true_eq,
          Nat.beq_eq_true_eq]
        omega
      · rw [hws] at hnw; exact absurd hnw (by simp)
      · rw [hh] at hnh; simp at hnh

theorem collapseRunsAux_head {p : Char → Bool} {r : Char} {l : List Char} {c : Char}
    (h : (collapseRunsAux p r true l).head? = some c) : p c = false := by
  induction l with
  | nil => simp [collapseRunsAux] at h
  | cons a as ih =>
    rw [collapseRunsAux] at h
    by_cases hp : p a
    · rw [if_pos hp, if_pos rfl] at h; exact ih h
    · rw [if_neg hp, List.head?_cons] at h
      have hac : a = c := by injection h
      subst hac; exact Bool.eq_false_iff.mpr hp

theorem chain'_collapseRunsAux {p : Char → Bool} {r : Char} (l : List Char) (prev : Bool) :
    List.Chain' (fun a b => p a = false ∨ p b = false) (collapseRunsAux p r prev l) := by
  induction l generalizing prev with
  | nil => simp [collapseRunsAux]
  | cons a as ih =>
    rw [collapseRunsAux]
    by_cases hp : p a
    · rw [if_pos hp]
      cases prev with
      | true => rw [if_pos rfl]; exact ih true
      | false =>
        rw [if_neg (by simp)]
        rw [List.chain'_cons']
        refine ⟨fun b hb => Or.inr ?_, ih true⟩
        exact collapseRunsAux_head hb
    · rw [if_neg hp]
      rw [List.chain'_cons']
      exact ⟨fun b _ => Or.inl (Bool.eq_false_iff.mpr hp), ih false⟩

/-- The no-adjacent-hyphens shape maintained between the hyphen-collapsing
pass and the output of `slugify`. -/
def noAdjHyphens (l : List Char) : Prop :=
  List.Chain' (fun a b => a ≠ '-' ∨ b ≠ '-') l

theorem noAdjHyphens_dropLeadHyphen {l : List Char} (h : noAdjHyphens l) :
    noAdjHyphens (dropLeadHyphen l) := by
  unfold dropLeadHyphen
  split
  · exact h.tail
  · exact h

theorem noAdjHyphens_take {l : List Char} (h : noAdjHyphens l) (n : Nat) :
    noAdjHyphens (l.take n) :=
  h.prefix (List.take_prefix n l)

theorem noAdjHyphens_dropTrailHyphen {l : List Char} (h : noAdjHyphens l) :
    noAdjHyphens (dropTrailHyphen l) := by
  unfold dropTrailHyphen
  split
  · rw [List.dropLast_eq_take]; exact noAdjHyphens_take h _
  · exact h

theorem noAdjHyphens_of_collapse {p : Char → Bool} {l : List Char} (prev : Bool)
    (hp : ∀ c, p c = false → c ≠ '-') :
    noAdjHyphens (collapseRunsAux p '-' prev l) := by
  refine (chain'_collapseRunsAux l prev).imp ?_
  intro a b hab
  rcases hab with h | h
  · exact Or.inl (hp a h)
  · exact Or.inr (hp b h)

theorem collapseRunsAux_id_of_not {p : Char → Bool} {r : Char} {l : List Char}
    (h : ∀ c ∈ l, p c = false) : collapseRunsAux p r false l = l := by
  induction l with
  | nil => rfl
  | cons a as ih =>
    rw [collapseRunsAux]
    rw [if_neg (by simp [h a (List.mem_cons_self a as)])]
    rw [ih (fun c hc => h c (List.mem_cons_of_mem _ hc))]

theorem collapseRunsAux_hyphen_id {l : List Char} (prev : Bool)
    (hchain : noAdjHyphens l)
    (hhead : prev = true → ∀ c, l.head? = some c → c ≠ '-') :
    collapseRunsAux (fun c => c = '-') '-' prev l = l := by
  induction l generalizing prev with
  | nil => rfl
  | cons a as ih =>
    by_cases ha : a = '-'
    · cases prev with
      | true => exact absurd ha (hhead rfl a rfl)
      | false =>
        subst ha
        rw [collapseRunsAux, if_pos (by simp), if_neg (by simp)]
        have htail : collapseRunsAux (fun c => c = '-') '-' true as = as := by
          apply ih true ((List.chain'_cons'.mp hchain).2)
          intro _ c hc
          have := (List.chain'_cons'.mp hchain).1 c hc
          rcases this with h1 | h1
          · exact absurd rfl h1
          · exact h1
        rw [htail]
    · rw [collapseRunsAux, if_neg (by simp [ha])]
      have htail : collapseRunsAux (fun c => c = '-') '-' false as = as :=
        ih false ((List.chain'_cons'.mp hchain).2) (by simp)
      rw [htail]

theorem head_take_eq {l : List Char} {n : Nat} {c : Char}
    (h : (l.take n).head? = some c) : l.head? = some c := by
  cases l with
  | nil => simp at h
  | cons a as =>
    cases n with
    | zero => simp at h
    | succ m => simpa using h

theorem head_dropTrailHyphen {l : List Char} {c : Char}
    (h : (dropTrailHyphen l).head? = some c) : l.head? = some c := by
  unfold dropTrailHyphen at h
  split at h
  · rw [List.dropLast_eq_take] at h; exact head_take_eq h
  · exact h

theorem head_dropLeadHyphen_not_hyphen {l : List Char} (hchain : noAdjHyphens l) :
    ∀ c, (dropLeadHyphen l).head? = some c → c ≠ '-' := by
  intro c hc
  unfold dropLeadHyphen at hc
  split at hc
  · rename_i hhd
    cases l with
    | nil => simp at hc
    | cons a as =>
      have ha : a = '-' := by
        rw [List.head?_cons] at hhd; injection hhd
      subst ha
      rcases (List.chain'_cons'.mp hchain).1 c hc with h1 | h1
      · exact absurd rfl h1
      · exact h1
  · rename_i hne
    intro hcontra
    subst hcontra
    exact hne hc

theorem slugify_data_noAdjHyphens (s : String) : noAdjHyphens (slugify s).data := by
  simp only [slugify]
  apply noAdjHyphens_take
  apply noAdjHyphens_dropTrailHyphen
  apply noAdjHyphens_dropLeadHyphen
  exact noAdjHyphens_of_collapse false (fun c h => by simpa using h)

theorem slugify_head_not_hyphen (s : String) :
    ∀ c, (slugify s).data.head? = some c → c ≠ '-' := by
  intro c hc
  simp only [slugify] at hc
  have h1 := head_dropTrailHyphen (head_take_eq hc)
  apply head_dropLeadHyphen_not_hyphen _ c h1
  exact noAdjHyphens_of_collapse false (fun c h => by simpa using h)

theorem jsLowerChar_id_of_slugOut {c : Char} (h : slugOutChar c = true) : jsLowerChar c = c := by
  unfold jsLowerChar
  rw [if_neg]
  simp only [slugOutChar, Bool.or_eq_true, Bool.and_eq_true, decide_eq_true_eq,
    Nat.beq_eq_true_eq] at h
  omega

theorem slugPred_of_slugOut {c : Char} (h : slugOutChar c = true) :
    (jsWordChar c || jsWsChar c || decide (c = '-')) = true := by
  simp only [slugOutChar, Bool.or_eq_true, Bool.and_eq_true, decide_eq_true_eq,
    Nat.beq_eq_true_eq] at h
  simp only [jsWordChar, jsWsChar, Bool.or_eq_true, Bool.and_eq_true, decide_eq_true_eq,
    Nat.beq_eq_true_eq]
  rcases h with ((h | h) | h) | h
  · exact Or.inl (Or.inl (by omega))
  · exact Or.inl (Or.inl (by omega))
  · exact Or.inl (Or.inl (by omega))
  · exact Or.inr (char_toNat_inj (h.trans (by decide)))

theorem not_ws_of_slugOut {c : Char} (h : slugOutChar c = true) : jsWsChar c = false := by
  simp only [slugOutChar, Bool.or_eq_true, Bool.and_eq_true, decide_eq_true_eq,
    Nat.beq_eq_true_eq] at h
  simp only [jsWsChar, Bool.or_eq_false_iff, beq_eq_false_iff_ne, ne_eq]
  omega

theorem dropLeadHyphen_id_of_head {l : List Char}
    (h : ∀ c, l.head? = some c → c ≠ '-') : dropLeadHyphen l = l := by
  unfold dropLeadHyphen
  rw [if_neg]
  intro hcontra
  exact (h '-' hcontra) rfl

theorem slugify_fixes_slug_output {s : String}
    (htrail : (slugify s).data.getLast? ≠ some '-') :
    slugify (slugify s) = slugify s := by
  have hchars : ∀ c ∈ (slugify s).data, slugOutChar c = true :=
    fun _ hc => slugOutChar_of_mem_slugify hc
  have h1 : (slugify s).data.map jsLowerChar = (slugify s).data := by
    rw [List.map_congr_left (fun c hc => jsLowerChar_id_of_slugOut (hchars c hc))]
    exact List.map_id _
  have h2 : (slugify s).data.filter (fun c => jsWordChar c || jsWsChar c || c = '-')
      = (slugify s).data :=
    List.filter_eq_self.mpr (fun c hc => slugPred_of_slugOut (hchars c hc))
  have h3 : collapseRuns jsWsChar '-' (slugify s).data = (slugify s).data :=
    collapseRunsAux_id_of_not (fun c hc => not_ws_of_slugOut (hchars c hc))
  have h4 : collapseRuns (fun c => c = '-') '-' (slugify s).data = (slugify s).data :=
    collapseRunsAux_hyphen_id false (slugify_data_noAdjHyphens s) (by simp)
  have h5 : dropLeadHyphen (slugify s).data = (slugify s).data :=
    dropLeadHyphen_id_of_head (slugify_head_not_hyphen s)
  have h6 : dropTrailHyphen (slugify s).data = (slugify s).data := by
    unfold dropTrailHyphen; rw [if_neg htrail]
  have h7 : (slugify s).data.take 50 = (slugify s).data := by
    apply List.take_of_length_le
    simp only [slugify]
    rw [List.length_take]
    exact min_le_left _ _
  calc slugify (slugify s)
      = String.mk ((dropTrailHyphen (dropLeadHyphen (collapseRuns (fun c => c = '-') '-'
          (collapseRuns jsWsChar '-' (((slugify s).data.map jsLowerChar).filter
            (fun c => jsWordChar c || jsWsChar c || c = '-')))))).take 50) := rfl
    _ = slugify s := by
        rw [h1, h2, h3, h4, h5, h6, h7]

/-- C7 counterexample: the claim fails on the code in both halves.  For the
49-&#97;s-space-b input, truncation to 50 leaves a trailing hyphen that a second
`slugify` strips, so `slug(slug(x)) ≠ slug(x)`; and `slugify "a_b" = "a_b"`
contains `_`, which is outside the claimed `[a-z0-9-]` character set. -/
theorem c7_counterexample :
    slugify (slugify (String.mk (List.replicate 49 'a') ++ " b"))
        ≠ slugify (String.mk (List.replicate 49 'a') ++ " b") ∧
    '_' ∈ (slugify "a_b").data ∧ claimSlugChar '_' = false := by
  exact ⟨by decide, by decide, by decide⟩

/-- C7 (amended): every character of `slugify x` lies in `[a-z0-9_-]`
(underscore included, since JS `\w` retains it), and `slugify` is idempotent
on every input whose slug does not end in `-` — a trailing hyphen can arise
only from the final truncation to 50 characters, and re-slugifying then
strips exactly that hyphen. -/
theorem c7_slug_idem_charset (x : String) :
    (∀ c ∈ (slugify x).data, slugOutChar c = true) ∧
    ((slugify x).data.getLast? ≠ some '-' → slugify (slugify x) = slugify x) :=
  ⟨fun _ hc => slugOutChar_of_mem_slugify hc, slugify_fixes_slug_output⟩

theorem c7_witness :
    (∀ c ∈ (slugify "Family Chat").data, slugOutChar c = true) ∧
    slugify (slugify "Family Chat") = slugify "Family Chat" :=
  ⟨(c7_slug_idem_charset "Family Chat").1,
   (c7_slug_idem_charset "Family Chat").2 (by decide)⟩

/-! ## Debouncer (`flushMessageBuffer` in the Telegram client, claim C2) -/

/-- One entry of a per-(chat, topic) debounce buffer; `sessionKey` is
flattened into `chatId`/`topicId`.  `timestamp` is the Telegram date in
milliseconds. -/
structure BufferedMessage where
  chatId : Int
  topicId : Nat
  folder : String
  content : String
  senderName : String
  messageId : Nat
  replyToMessageId : Option Nat
  timestamp : Nat
deriving DecidableEq, Repr

/-- The argument tuple passed to the message handler by a flush. -/
structure FlushOutput where
  chatId : Int
  topicId : Nat
  folder : String
  combined : String
  batchSender : String
  replyTarget : Nat
  replyTo : Option Nat
deriving DecidableEq, Repr

/-- `flushMessageBuffer`: sort the buffer by timestamp (JS `sort` is stable;
modelled by insertion sort), join the contents with `\n` prefixing each line
with `[sender]: ` when the buffer holds more than one message, name the
batch after the single message's sender or the literal `Multiple users`,
and pass the last (newest) message's id as the reply target together with
the first message's reply-to. -/
def flushMessageBuffer (messages : List BufferedMessage) : Option FlushOutput :=
  let sorted := List.insertionSort (fun a b => a.timestamp ≤ b.timestamp) messages
  match sorted with
  | [] => none
  | first :: rest =>
    some { chatId := first.chatId
           topicId := first.topicId
           folder := first.folder
           combined := String.intercalate "\n" ((first :: rest).map (fun m =>
             (if messages.length > 1 then "[" ++ m.senderName ++ "]: " else "") ++ m.content))
           batchSender := if messages.length = 1 then first.senderName else "Multiple users"
           replyTarget := ((first :: rest).getLast (List.cons_ne_nil _ _)).messageId
           replyTo := first.replyToMessageId }

instance : IsTotal BufferedMessage (fun a b => a.timestamp ≤ b.timestamp) :=
  ⟨fun a b => Nat.le_total a.timestamp b.timestamp⟩

instance : IsTrans BufferedMessage (fun a b => a.timestamp ≤ b.timestamp) :=
  ⟨fun _ _ _ h1 h2 => Nat.le_trans h1 h2⟩

theorem sorted_ts_le_getLast {l : List BufferedMessage}
    (h : List.Sorted (fun a b : BufferedMessage => a.timestamp ≤ b.timestamp) l)
    (hne : l ≠ []) : ∀ x ∈ l, x.timestamp ≤ (l.getLast hne).timestamp := by
  induction l with
  | nil => simp
  | cons a t ih =>
    intro x hx
    cases t with
    | nil =>
      rcases List.mem_cons.mp hx with rfl | hmem
      · simp [List.getLast]
      · simp at hmem
    | cons b u =>
      rw [List.getLast_cons (List.cons_ne_nil _ _)]
      rcases List.mem_cons.mp hx with rfl | hx'
      · exact (List.pairwise_cons.mp h).1 _ (List.getLast_mem _)
      · exact ih (List.pairwise_cons.mp h).2 (List.cons_ne_nil _ _) x hx'

/-- C2 counterexample: a buffer with two messages from the single sender
`alice` is flushed with the multi-sender label `Multiple users` and with
`[alice]: ` prefixes on every line, although the claim requires the single
sender's name and unprefixed lines for single-sender batches — the source
branches on the message count, not the sender count. -/
theorem c2_counterexample :
    (flushMessageBuffer
        [⟨100, 0, "family-chat", "hi", "alice", 1, none, 1000⟩,
         ⟨100, 0, "family-chat", "there", "alice", 2, none, 2000⟩]).map
          (fun o => (o.batchSender, o.combined))
      = some ("Multiple users", "[alice]: hi\n[alice]: there") ∧
    "Multiple users" ≠ "alice" ∧
    "[alice]: hi\n[alice]: there" ≠ "hi\nthere" :=
  ⟨by decide, by decide, by decide⟩

/-- C2 (amended): every non-empty buffer is flushed exactly once, merging
the messages in timestamp order (a stable sort, so a permutation of the
buffer sorted by timestamp); each line carries the `[sender]: ` prefix
exactly when the buffer holds more than one MESSAGE (not sender); the batch
sender name is the sender's name for singleton buffers and the literal
`Multiple users` otherwise; and the reply target is the id of a
maximal-timestamp (newest) message of the buffer. -/
theorem c2_flush_merges_in_timestamp_order (msgs : List BufferedMessage)
    (hne : msgs ≠ []) :
    ∃ out sorted, flushMessageBuffer msgs = some out ∧
      sorted.Perm msgs ∧
      List.Sorted (fun a b : BufferedMessage => a.timestamp ≤ b.timestamp) sorted ∧
      out.combined = String.intercalate "\n" (sorted.map (fun m =>
        (if msgs.length > 1 then "[" ++ m.senderName ++ "]: " else "") ++ m.content)) ∧
      (∀ m0, msgs = [m0] → out.batchSender = m0.senderName) ∧
      (1 < msgs.length → out.batchSender = "Multiple users") ∧
      (∃ m ∈ msgs, out.replyTarget = m.messageId ∧
        ∀ m' ∈ msgs, m'.timestamp ≤ m.timestamp) := by
  have hperm : (List.insertionSort (fun a b : BufferedMessage =>
      a.timestamp ≤ b.timestamp) msgs).Perm msgs :=
    List.perm_insertionSort _ msgs
  have hsorted : List.Sorted (fun a b : BufferedMessage => a.timestamp ≤ b.timestamp)
      (List.insertionSort (fun a b => a.timestamp ≤ b.timestamp) msgs) :=
    List.sorted_insertionSort _ msgs
  rcases hs : List.insertionSort (fun a b : BufferedMessage =>
      a.timestamp ≤ b.timestamp) msgs with _ | ⟨first, rest⟩
  · rw [hs] at hperm
    exact absurd (hperm.nil_eq.symm) hne
  · rw [hs] at hperm hsorted
    have hflush : flushMessageBuffer msgs = some
        { chatId := first.chatId, topicId := first.topicId, folder := first.folder,
          combined := String.intercalate "\n" ((first :: rest).map (fun m =>
            (if msgs.length > 1 then "[" ++ m.senderName ++ "]: " else "") ++ m.content)),
          batchSender := if msgs.length = 1 then first.senderName else "Multiple users",
          replyTarget := ((first :: rest).getLast (List.cons_ne_nil _ _)).messageId,
          replyTo := first.replyToMessageId } := by
      simp only [flushMessageBuffer, hs]
    refine ⟨_, first :: rest, hflush, hperm, hsorted, rfl, ?_, ?_, ?_⟩
    · intro m0 hm0
      subst hm0
      have h1 : first :: rest = [m0] := List.perm_singleton.mp hperm
      have h2 : first = m0 := by injection h1
      simp [h2]
    · intro hlen
      simp only []
      rw [if_neg (by omega)]
    · refine ⟨(first :: rest).getLast (List.cons_ne_nil _ _),
        hperm.subset (List.getLast_mem _), rfl, ?_⟩
      intro m' hm'
      exact sorted_ts_le_getLast hsorted (List.cons_ne_nil _ _) m' (hperm.mem_iff.mpr hm')

theorem c2_witness :
    ∃ out sorted,
      flushMessageBuffer [⟨100, 0, "family-chat", "hi", "alice", 1, none, 1000⟩] = some out ∧
      sorted.Perm [⟨100, 0, "family-chat", "hi", "alice", 1, none, 1000⟩] ∧
      List.Sorted (fun a b : BufferedMessage => a.timestamp ≤ b.timestamp) sorted ∧
      out.combined = String.intercalate "\n" (sorted.map (fun m =>
        (if ([⟨100, 0, "family-chat", "hi", "alice", 1, none, 1000⟩] :
            List BufferedMessage).length > 1
         then "[" ++ m.senderName ++ "]: " else "") ++ m.content)) ∧
      (∀ m0, ([⟨100, 0, "family-chat", "hi", "alice", 1, none, 1000⟩] :
          List BufferedMessage) = [m0] → out.batchSender = m0.senderName) ∧
      (1 < ([⟨100, 0, "family-chat", "hi", "alice", 1, none, 1000⟩] :
          List BufferedMessage).length → out.batchSender = "Multiple users") ∧
      (∃ m ∈ ([⟨100, 0, "family-chat", "hi", "alice", 1, none, 1000⟩] :
          List BufferedMessage), out.replyTarget = m.messageId ∧
        ∀ m' ∈ ([⟨100, 0, "family-chat", "hi", "alice", 1, none, 1000⟩] :
          List BufferedMessage), m'.timestamp ≤ m.timestamp) :=
  c2_flush_merges_in_timestamp_order
    [⟨100, 0, "family-chat", "hi", "alice", 1, none, 1000⟩] (by decide)

/-! ## Store: the `messages` table (`storeMessage`, `getMessagesSince`,
claims C9 and C5) -/

inductive MsgType where
  | text
  | reaction
  | agentResponse
deriving DecidableEq, Repr

/-- One row of the `messages` table (primary key `(chat_id, topic_id, id)`). -/
structure StoredMessage where
  id : String
  chatId : Int
  topicId : Nat
  senderId : Int
  senderName : String
  content : String
  type : MsgType
  timestamp : String
  isBot : Bool
  replyToMessageId : Option Nat
  reactionEmoji : Option String
  reactionAction : Option String
  targetMessageId : Option Nat
  agentSessionId : Option String
deriving DecidableEq, Repr

def samePK (chatId : Int) (topicId : Nat) (id : String) (m : StoredMessage) : Bool :=
  m.chatId == chatId && m.topicId == topicId && m.id == id

def pkOf (m : StoredMessage) : Int × Nat × String :=
  (m.chatId, m.topicId, m.id)

/-- The `(chat_id, topic_id, id)` primary-key uniqueness of the table. -/
def nodupPK (store : List StoredMessage) : Prop :=
  (store.map pkOf).Nodup

/-- `storeMessage` from `src/db.ts`: `INSERT OR REPLACE` on the primary key
`(chat_id, topic_id, id)` — the conflicting row is deleted and the new row
(with a timestamp taken from the wall clock `now` at call time) is inserted.
The side call `updateTopicTimestamp` touches the `topics` table only and is
outside this model of the `messages` table. -/
def storeMessage (store : List StoredMessage) (now : String)
    (id : String) (chatId : Int) (topicId : Nat) (senderId : Int)
    (senderName : String) (content : String) (type : MsgType) (isBot : Bool)
    (replyToMessageId : Option Nat) (reactionEmoji : Option String)
    (reactionAction : Option String) (targetMessageId : Option Nat)
    (agentSessionId : Option String) : List StoredMessage :=
  store.filter (fun m => !(samePK chatId topicId id m)) ++
    [{ id := id, chatId := chatId, topicId := topicId, senderId := senderId,
       senderName := senderName, content := content, type := type,
       timestamp := now, isBot := isBot, replyToMessageId := replyToMessageId,
       reactionEmoji := reactionEmoji, reactionAction := reactionAction,
       targetMessageId := targetMessageId, agentSessionId := agentSessionId }]

theorem samePK_iff {chatId : Int} {topicId : Nat} {id : String} {m : StoredMessage} :
    samePK chatId topicId id m = true ↔ pkOf m = (chatId, topicId, id) := by
  simp [samePK, pkOf, Prod.ext_iff, and_assoc]

/-- C9 counterexample: a second `storeMessage` with a primary key already
present does change the store — the replaced row receives the (later) wall
clock of the second call as its timestamp, so the state differs from the
state after the first call, violating idempotence of the stored data. -/
theorem c9_counterexample :
    ((storeMessage [] "2026-01-01T00:00:00.000Z" "1" 100 0 7 "alice" "hi"
        .text false none none none none none).filter (samePK 100 0 "1")).length = 1 ∧
    storeMessage (storeMessage [] "2026-01-01T00:00:00.000Z" "1" 100 0 7 "alice" "hi"
        .text false none none none none none) "2026-01-01T00:00:05.000Z" "1" 100 0 7 "alice" "hi"
        .text false none none none none none
      ≠ storeMessage [] "2026-01-01T00:00:00.000Z" "1" 100 0 7 "alice" "hi"
        .text false none none none none none :=
  ⟨by decide, by decide⟩

/-- C9 (amended): `storeMessage` is idempotent only at the level of the key
set: after any call exactly one row carries the key, primary-key uniqueness
is preserved, and a repeated call with identical arguments at the same wall
clock instant is a no-op; but a second call replaces the stored row, so the
state equals a single call at the second instant, not the state after the
first call. -/
theorem c9_store_message_replaces (store : List StoredMessage) (now₁ now₂ : String)
    (id : String) (chatId : Int) (topicId : Nat) (senderId : Int)
    (senderName : String) (content : String) (type : MsgType) (isBot : Bool)
    (replyToMessageId : Option Nat) (reactionEmoji : Option String)
    (reactionAction : Option String) (targetMessageId : Option Nat)
    (agentSessionId : Option String) :
    ((storeMessage store now₁ id chatId topicId senderId senderName content type isBot
        replyToMessageId reactionEmoji reactionAction targetMessageId
        agentSessionId).filter (samePK chatId topicId id)).length = 1 ∧
    (nodupPK store → nodupPK (storeMessage store now₁ id chatId topicId senderId
        senderName content type isBot replyToMessageId reactionEmoji reactionAction
        targetMessageId agentSessionId)) ∧
    storeMessage (storeMessage store now₁ id chatId topicId senderId senderName content
        type isBot replyToMessageId reactionEmoji reactionAction targetMessageId
        agentSessionId) now₂ id chatId topicId senderId senderName content type isBot
        replyToMessageId reactionEmoji reactionAction targetMessageId agentSessionId
      = storeMessage store now₂ id chatId topicId senderId senderName content type isBot
        replyToMessageId reactionEmoji reactionAction targetMessageId agentSessionId := by
  have hrow : samePK chatId topicId id
      { id := id, chatId := chatId, topicId := topicId, senderId := senderId,
        senderName := senderName, content := content, type := type,
        timestamp := now₁, isBot := isBot, replyToMessageId := replyToMessageId,
        reactionEmoji := reactionEmoji, reactionAction := reactionAction,
        targetMessageId := targetMessageId, agentSessionId := agentSessionId } = true := by
    simp [samePK]
  have hfalse : (fun a : StoredMessage =>
      samePK chatId topicId id a && !samePK chatId topicId id a) = fun _ => false := by
    funext a; exact Bool.and_not_self _
  refine ⟨?_, ?_, ?_⟩
  · rw [storeMessage, List.filter_append, List.filter_filter, hfalse]
    rw [List.filter_cons, if_pos hrow]
    simp
  · intro hnd
    rw [storeMessage, nodupPK, List.map_append]
    rw [List.nodup_append]
    refine ⟨List.Nodup.sublist ((List.filter_sublist store).map pkOf) hnd, by simp, ?_⟩
    intro a ha hb
    rcases List.mem_map.mp ha with ⟨m, hm, hpk⟩
    have hp := List.of_mem_filter hm
    have hbpk : a = (chatId, topicId, id) := by
      simpa [pkOf] using hb
    have hsp : samePK chatId topicId id m = true := samePK_iff.mpr (hpk.trans hbpk)
    rw [hsp] at hp
    simp at hp
  · rw [storeMessage, storeMessage, storeMessage]
    congr 1
    rw [List.filter_append, List.filter_filter]
    have hand : (fun a : StoredMessage =>
        !samePK chatId topicId id a && !samePK chatId topicId id a)
        = fun a => !samePK chatId topicId id a := by
      funext a; exact Bool.and_self _
    rw [hand]
    simp [hrow]

theorem c9_witness :
    nodupPK (storeMessage [] "2026-01-01T00:00:00.000Z" "1" 100 0 7 "alice" "hi"
      .text false none none none none none) :=
  (c9_store_message_replaces [] "2026-01-01T00:00:00.000Z" "2026-01-01T00:00:05.000Z"
    "1" 100 0 7 "alice" "hi" .text false none none none none none).2.1
    (by simp [nodupPK])

/-! ## Store: `getMessagesSince` and the Dispatch Core prompt (claim C5) -/

/-- ASCII-case-insensitive prefix test: SQLite's `LIKE '<pat>:%'` folds the
ASCII letters of both operands (the supplied bot name contains no `%`/`_`
wildcards).  Models `content NOT LIKE '<botName>:%'` via its complement. -/
def likeStartsCI (pat s : String) : Bool :=
  List.isPrefixOf (pat.data.map jsLowerChar) (s.data.map jsLowerChar)

/-- The row filter of the `getMessagesSince` query in `src/db.ts`:
`chat_id = ? AND topic_id = ? AND timestamp > ? AND type = 'text' AND
content NOT LIKE '<botName>:%'` (ISO timestamps compare as text). -/
def msgSincePred (chatId : Int) (topicId : Nat) (sinceTimestamp botName : String)
    (m : StoredMessage) : Bool :=
  m.chatId == chatId && m.topicId == topicId &&
  decide (sinceTimestamp.data < m.timestamp.data) && m.type == MsgType.text &&
  !likeStartsCI (botName ++ ":") m.content

/-- The projected row shape returned by `getMessagesSince`. -/
structure NewMessage where
  id : String
  chatId : Int
  topicId : Nat
  senderId : Int
  senderName : String
  content : String
  timestamp : String
deriving DecidableEq, Repr

def toNewMessage (m : StoredMessage) : NewMessage :=
  ⟨m.id, m.chatId, m.topicId, m.senderId, m.senderName, m.content, m.timestamp⟩

instance : IsTotal StoredMessage (fun a b => a.timestamp.data ≤ b.timestamp.data) :=
  ⟨fun a b => le_total a.timestamp.data b.timestamp.data⟩

instance : IsTrans StoredMessage (fun a b => a.timestamp.data ≤ b.timestamp.data) :=
  ⟨fun _ _ _ h1 h2 => le_trans h1 h2⟩

/-- `getMessagesSince` from `src/db.ts`: filter rows of the (chat, topic)
with timestamp strictly above `sinceTimestamp`, of type text, whose content
does not carry the bot prefix, ordered by timestamp (`ORDER BY timestamp`). -/
def getMessagesSince (store : List StoredMessage) (chatId : Int) (topicId : Nat)
    (sinceTimestamp botName : String) : List NewMessage :=
  (List.insertionSort (fun a b => a.timestamp.data ≤ b.timestamp.data)
    (store.filter (msgSincePred chatId topicId sinceTimestamp botName))).map toNewMessage

/-- Sequential `String.replace` passes of the `escapeXml` helper inside
`handleMessage`; the replacement of `c` by `rep` applied character-wise
(each earlier pass introduces no character replaced by a later pass). -/
def replacePass (c : Char) (rep : List Char) (l : List Char) : List Char :=
  l.flatMap (fun a => if a = c then rep else [a])

def escapeXml (s : String) : String :=
  String.mk (replacePass '"' "&quot;".data
    (replacePass '>' "&gt;".data
      (replacePass '<' "&lt;".data
        (replacePass '&' "&amp;".data s.data))))

/-- One `<message …>…</message>` line of the prompt. -/
def renderMessage (m : NewMessage) : String :=
  "<message sender=\"" ++ escapeXml m.senderName ++ "\" time=\"" ++ m.timestamp ++
    "\">" ++ escapeXml m.content ++ "</message>"

/-- The prompt assembled by `handleMessage` for workspace folder `F`:
`lastAgentTs` is `lastAgentTimestamp[F]` (absent modelled as `none`, which
the source coerces to `''` via `|| ''`). -/
def handleMessagePrompt (store : List StoredMessage) (chatId : Int) (topicId : Nat)
    (lastAgentTs : Option String) (botName : String) : String :=
  let sinceTimestamp := lastAgentTs.getD ""
  let missed := getMessagesSince store chatId topicId sinceTimestamp botName
  "<messages>\n" ++ String.intercalate "\n" (missed.map renderMessage) ++ "\n</messages>"

/-- The claim's (spec-worded) row filter: identical to `msgSincePred` except
that "content is not prefixed with `<assistant_name>:`" is read literally,
i.e. case-SENSITIVELY. -/
def specMsgPred (chatId : Int) (topicId : Nat) (sinceTimestamp botName : String)
    (m : StoredMessage) : Bool :=
  m.chatId == chatId && m.topicId == topicId &&
  decide (sinceTimestamp.data < m.timestamp.data) && m.type == MsgType.text &&
  !List.isPrefixOf (botName ++ ":").data m.content.data

def pkOfNew (n : NewMessage) : Int × Nat × String :=
  (n.chatId, n.topicId, n.id)

/-- C5 counterexample: with assistant name `Nanomi`, a stored text message
whose content is `NANOMI: hello` is NOT prefixed with `Nanomi:` (so the
claim includes it in the prompt), yet SQLite's `NOT LIKE 'Nanomi:%'` is
ASCII-case-insensitive and excludes it: the prompt comes out empty. -/
theorem c5_counterexample :
    specMsgPred 100 0 "" "Nanomi"
      ⟨"9", 100, 0, 7, "bob", "NANOMI: hello", .text, "2026-01-01T10:00:00.000Z",
        false, none, none, none, none, none⟩ = true ∧
    getMessagesSince
      [⟨"9", 100, 0, 7, "bob", "NANOMI: hello", .text, "2026-01-01T10:00:00.000Z",
        false, none, none, none, none, none⟩] 100 0 "" "Nanomi" = [] ∧
    handleMessagePrompt
      [⟨"9", 100, 0, 7, "bob", "NANOMI: hello", .text, "2026-01-01T10:00:00.000Z",
        false, none, none, none, none, none⟩] 100 0 none "Nanomi"
      = "<messages>\n\n</messages>" :=
  ⟨by decide, by decide, by decide⟩

/-- C5 (amended): for every store, (chat, topic), recorded
`lastAgentTimestamp` and assistant name, the prompt built by
`handleMessage` is a `<messages>` element whose entries are exactly the
stored messages of the pair with timestamp strictly above the recorded
value (absent modelled as the empty string), of type text, whose content is
not CASE-INSENSITIVELY (ASCII, as SQLite `LIKE`) prefixed with
`<assistant_name>:`, in ascending timestamp order, rendered with XML-escaped
sender and content — without duplicates when the store respects its primary
key. -/
theorem c5_prompt_contains_exactly (store : List StoredMessage) (chatId : Int)
    (topicId : Nat) (lastAgentTs : Option String) (botName : String) :
    ∃ sorted : List StoredMessage,
      (∀ m : StoredMessage, m ∈ sorted ↔ m ∈ store ∧
        msgSincePred chatId topicId (lastAgentTs.getD "") botName m = true) ∧
      List.Sorted (fun a b : StoredMessage => a.timestamp.data ≤ b.timestamp.data) sorted ∧
      getMessagesSince store chatId topicId (lastAgentTs.getD "") botName
        = sorted.map toNewMessage ∧
      handleMessagePrompt store chatId topicId lastAgentTs botName
        = "<messages>\n" ++ String.intercalate "\n"
            ((sorted.map toNewMessage).map renderMessage) ++ "\n</messages>" ∧
      (nodupPK store → (sorted.map toNewMessage).Nodup) := by
  refine ⟨List.insertionSort (fun a b => a.timestamp.data ≤ b.timestamp.data)
    (store.filter (msgSincePred chatId topicId (lastAgentTs.getD "") botName)),
    ?_, List.sorted_insertionSort _ _, rfl, rfl, ?_⟩
  · intro m
    rw [(List.perm_insertionSort _ _).mem_iff, List.mem_filter]
  · intro hnd
    have h1 : ((store.filter (msgSincePred chatId topicId (lastAgentTs.getD "")
        botName)).map pkOf).Nodup :=
      List.Nodup.sublist ((List.filter_sublist store).map pkOf) hnd
    have h2 : ((List.insertionSort (fun a b : StoredMessage =>
        a.timestamp.data ≤ b.timestamp.data) (store.filter (msgSincePred chatId topicId
          (lastAgentTs.getD "") botName))).map pkOf).Nodup :=
      (((List.perm_insertionSort (fun a b : StoredMessage =>
        a.timestamp.data ≤ b.timestamp.data) _)).map pkOf).nodup_iff.mpr h1
    have h3 : (((List.insertionSort (fun a b : StoredMessage =>
        a.timestamp.data ≤ b.timestamp.data) (store.filter (msgSincePred chatId topicId
          (lastAgentTs.getD "") botName))).map toNewMessage).map pkOfNew).Nodup := by
      rw [List.map_map]
      exact h2
    exact h3.of_map

theorem c5_witness :
    ∃ sorted : List StoredMessage,
      (∀ m : StoredMessage,
        m ∈ sorted ↔ m ∈ [⟨"9", 100, 0, 7, "bob", "hello", .text,
            "2026-01-01T10:00:00.000Z", false, none, none, none, none, none⟩] ∧
          msgSincePred 100 0 ((none : Option String).getD "") "Nanomi" m = true) ∧
      List.Sorted (fun a b : StoredMessage => a.timestamp.data ≤ b.timestamp.data) sorted ∧
      getMessagesSince [⟨"9", 100, 0, 7, "bob", "hello", .text,
          "2026-01-01T10:00:00.000Z", false, none, none, none, none, none⟩] 100 0
          ((none : Option String).getD "") "Nanomi"
        = sorted.map toNewMessage ∧
      handleMessagePrompt [⟨"9", 100, 0, 7, "bob", "hello", .text,
          "2026-01-01T10:00:00.000Z", false, none, none, none, none, none⟩] 100 0
          none "Nanomi"
        = "<messages>\n" ++ String.intercalate "\n"
            ((sorted.map toNewMessage).map renderMessage) ++ "\n</messages>" ∧
      (sorted.map toNewMessage).Nodup := by
  obtain ⟨sorted, h1, h2, h3, h4, h5⟩ := c5_prompt_contains_exactly
    [⟨"9", 100, 0, 7, "bob", "hello", .text,
        "2026-01-01T10:00:00.000Z", false, none, none, none, none, none⟩] 100 0
    none "Nanomi"
  exact ⟨sorted, h1, h2, h3, h4, h5 (by simp [nodupPK])⟩

/-! ## Mailbox: IPC message actions in `startIpcWatcher` (claim C1) -/

/-- `MAIN_FOLDER` from `src/config.ts`. -/
def mainFolder : String := "main"

inductive TriggerMode where
  | always
  | mention
  | disabled
deriving DecidableEq, Repr

structure TriggerConfig where
  mode : TriggerMode
  mentionPattern : Option String
deriving DecidableEq, Repr

/-- A registered chat (the registry entries of the session manager). -/
structure RegisteredChat where
  chatId : Int
  chatType : String
  chatTitle : String
  defaultTrigger : TriggerConfig
deriving DecidableEq, Repr

def getRegisteredChat (registry : List RegisteredChat) (chatId : Int) :
    Option RegisteredChat :=
  registry.find? (fun c => c.chatId == chatId)

/-- One row of the `topics` table. -/
structure TopicRow where
  chatId : Int
  topicId : Nat
  topicName : String
  folder : String
  triggerMode : String
deriving DecidableEq, Repr

/-- A parsed JSON file from a workspace's `messages/` IPC directory;
absent JSON fields are `none`. -/
structure IpcMessageFile where
  type : String
  chatId : Option Int
  topicId : Option Nat
  text : Option String
  messageId : Option Nat
  emoji : Option String
deriving DecidableEq, Repr

/-- What the supervisor does with one mailbox message file. -/
inductive IpcOutcome where
  | sentMessage (chatId : Int) (topicId : Nat) (text : String)
  | sentReaction (chatId : Int) (messageId : Nat) (emoji : String)
  | blocked
  | ignored
deriving DecidableEq, Repr

/-- The `messages/` branch of `startIpcWatcher` in `src/index.ts`: the guards
mirror the JS truthiness tests (`data.text`, `data.messageId`, `data.emoji`
reject empty strings and a zero id), `isMain` is
`isMainFolder(sourceFolder)`, and the authorization expressions are kept
verbatim: `isMain || (targetChat && sourceFolder === MAIN_FOLDER)` for
messages and `isMain || targetChat` for reactions. -/
def processIpcMessageFile (registry : List RegisteredChat)
    (assistantName sourceFolder : String) (data : IpcMessageFile) : IpcOutcome :=
  let isMain := sourceFolder == mainFolder
  if data.type == "message" then
    match data.chatId, data.text with
    | some chatId, some text =>
      if text ≠ "" then
        let targetChat := getRegisteredChat registry chatId
        if isMain || (targetChat.isSome && sourceFolder == mainFolder) then
          .sentMessage chatId (data.topicId.getD 0) (assistantName ++ ": " ++ text)
        else .blocked
      else .ignored
    | _, _ => .ignored
  else if data.type == "reaction" then
    match data.chatId, data.messageId, data.emoji with
    | some chatId, some messageId, some emoji =>
      if messageId ≠ 0 ∧ emoji ≠ "" then
        if isMain || (getRegisteredChat registry chatId).isSome then
          .sentReaction chatId messageId emoji
        else .blocked
      else .ignored
    | _, _, _ => .ignored
  else .ignored

/-- Modelled from the spec: the claim's authorization predicate — the source
workspace is `main`, or it owns (via the topics table) a registered chat
whose id equals the target `chat_id`. -/
def specMailboxAllowed (topics : List TopicRow) (registry : List RegisteredChat)
    (sourceFolder : String) (chatId : Int) : Bool :=
  sourceFolder == mainFolder ||
    ((getRegisteredChat registry chatId).isSome &&
      topics.any (fun t => t.folder == sourceFolder && t.chatId == chatId))

/-- C1 counterexample, both directions.  Registry: chat 100 registered;
topics: workspace `family-chat` owns chat 100.  (i) A `message` action from
`family-chat` to its own registered chat 100 is authorized by the claim but
the code blocks it: the code's clause `targetChat && sourceFolder ===
MAIN_FOLDER` is subsumed by `isMain`, so messages are main-only.  (ii) A
`reaction` action from the unrelated workspace `other` to chat 100 is
denied by the claim (no ownership) but the code sends it: reactions only
require the target chat to be registered to anyone. -/
theorem c1_counterexample :
    specMailboxAllowed [⟨100, 0, "General", "family-chat", "mention"⟩]
      [⟨100, "group", "Family Chat", ⟨.mention, none⟩⟩] "family-chat" 100 = true ∧
    processIpcMessageFile [⟨100, "group", "Family Chat", ⟨.mention, none⟩⟩]
      "Nanomi" "family-chat" ⟨"message", some 100, some 0, some "hi", none, none⟩
      = .blocked ∧
    specMailboxAllowed [⟨100, 0, "General", "family-chat", "mention"⟩]
      [⟨100, "group", "Family Chat", ⟨.mention, none⟩⟩] "other" 100 = false ∧
    processIpcMessageFile [⟨100, "group", "Family Chat", ⟨.mention, none⟩⟩]
      "Nanomi" "other" ⟨"reaction", some 100, none, none, some 5, some "x"⟩
      = .sentReaction 100 5 "x" :=
  ⟨by decide, by decide, by decide, by decide⟩

/-- C1 (amended): a well-formed `message` mailbox action is applied (sent to
the chat platform with the assistant prefix) iff the source workspace is
`main` — the code's second disjunct `targetChat && sourceFolder ===
MAIN_FOLDER` is subsumed by `isMain`, so chat ownership plays no role; a
well-formed `reaction` action is applied iff the source workspace is `main`
OR the target chat is registered (to any workspace — no ownership check);
otherwise the file is discarded with a warning and no egress occurs. -/
theorem c1_mailbox_authorization (registry : List RegisteredChat)
    (assistantName sourceFolder : String) (data : IpcMessageFile) :
    (∀ chatId text, data.type = "message" → data.chatId = some chatId →
      data.text = some text → text ≠ "" →
      processIpcMessageFile registry assistantName sourceFolder data
        = (if sourceFolder = mainFolder
           then .sentMessage chatId (data.topicId.getD 0) (assistantName ++ ": " ++ text)
           else .blocked)) ∧
    (∀ chatId messageId emoji, data.type = "reaction" → data.chatId = some chatId →
      data.messageId = some messageId → data.emoji = some emoji →
      messageId ≠ 0 → emoji ≠ "" →
      processIpcMessageFile registry assistantName sourceFolder data
        = (if sourceFolder = mainFolder ∨ (getRegisteredChat registry chatId).isSome = true
           then .sentReaction chatId messageId emoji
           else .blocked)) := by
  constructor
  · intro chatId text htype hcid htext hne
    rw [processIpcMessageFile]
    simp only [htype, hcid, htext]
    rw [if_pos (by simp)]
    rw [if_pos hne]
    by_cases hmain : sourceFolder = mainFolder
    · rw [if_pos (by simp [hmain]), if_pos hmain]
    · have hbeq : (sourceFolder == mainFolder) = false := by
        simp [hmain]
      rw [if_neg (by simp [hbeq]), if_neg hmain]
  · intro chatId messageId emoji htype hcid hmid hemo hmne hene
    rw [processIpcMessageFile]
    simp only [htype, hcid, hmid, hemo]
    rw [if_neg (by simp), if_pos (by simp)]
    rw [if_pos ⟨hmne, hene⟩]
    by_cases hauth : sourceFolder = mainFolder ∨ (getRegisteredChat registry chatId).isSome = true
    · rw [if_pos ?_, if_pos hauth]
      rcases hauth with h | h
      · simp [h]
      · simp [h]
    · rw [if_neg ?_, if_neg hauth]
      push_neg at hauth
      simp [hauth.1, hauth.2]

theorem c1_witness :
    processIpcMessageFile [⟨100, "group", "Family Chat", ⟨.mention, none⟩⟩]
      "Nanomi" "main" ⟨"message", some 100, some 0, some "hi", none, none⟩
      = .sentMessage 100 0 "Nanomi: hi" := by
  have h := (c1_mailbox_authorization [⟨100, "group", "Family Chat", ⟨.mention, none⟩⟩]
    "Nanomi" "main" ⟨"message", some 100, some 0, some "hi", none, none⟩).1
    100 "hi" rfl rfl rfl (by decide)
  rw [h, if_pos (by decide)]
  decide

/-! ## Scheduler and scheduled tasks (`task-scheduler.ts`, `db.ts`;
claims C3 and C4) -/

/-- The timezone-local calendar fields of an instant (minute granularity,
matching cron's resolution). -/
structure CronFields where
  minute : Nat
  hour : Nat
  dayOfMonth : Nat
  month : Nat
  dayOfWeek : Nat
deriving DecidableEq, Repr

/-- A parsed five-field cron expression; `none` is `*`, `some l` a
restricted value list. -/
structure CronExpr where
  minute : Option (List Nat)
  hour : Option (List Nat)
  dayOfMonth : Option (List Nat)
  month : Option (List Nat)
  dayOfWeek : Option (List Nat)
deriving DecidableEq, Repr

def matchesField (f : Option (List Nat)) (v : Nat) : Bool :=
  match f with
  | none => true
  | some l => l.contains v

/-- Modelled from the spec: the external cron-parser library's match
semantics (not repository code) — all fields must match, except that when
both day-of-month and day-of-week are restricted, either of the two
suffices (standard cron). -/
def cronMatches (e : CronExpr) (t : CronFields) : Bool :=
  matchesField e.minute t.minute && matchesField e.hour t.hour &&
  matchesField e.month t.month &&
  (match e.dayOfMonth, e.dayOfWeek with
   | some l, some l' => matchesField (some l) t.dayOfMonth ||
       matchesField (some l') t.dayOfWeek
   | _, _ => matchesField e.dayOfMonth t.dayOfMonth &&
       matchesField e.dayOfWeek t.dayOfWeek)

/-- Modelled from the spec: cron-parser's `interval.next()` — the first
instant strictly after `t` whose timezone-local fields (`fieldsOf`,
abstracting the configured IANA timezone's calendar) match the expression;
`fuel` bounds the forward search just as the library bounds its own
iteration. -/
def cronNextFrom (fieldsOf : Nat → CronFields) (e : CronExpr) : Nat → Nat → Option Nat
  | _, 0 => none
  | t, fuel + 1 =>
    if cronMatches e (fieldsOf (t + 1)) then some (t + 1)
    else cronNextFrom fieldsOf e (t + 1) fuel

theorem cronNextFrom_first_after {fieldsOf : Nat → CronFields} {e : CronExpr} :
    ∀ {t fuel t'}, cronNextFrom fieldsOf e t fuel = some t' →
      t < t' ∧ cronMatches e (fieldsOf t') = true ∧
        ∀ u, t < u → u < t' → cronMatches e (fieldsOf u) = false := by
  intro t fuel
  induction fuel generalizing t with
  | zero => intro t' h; simp [cronNextFrom] at h
  | succ n ih =>
    intro t' h
    rw [cronNextFrom] at h
    by_cases hm : cronMatches e (fieldsOf (t + 1)) = true
    · rw [if_pos hm] at h
      have ht' : t + 1 = t' := by injection h
      subst ht'
      exact ⟨Nat.lt_succ_self t, hm, fun u hu1 hu2 => absurd hu1 (by omega)⟩
    · rw [if_neg hm] at h
      obtain ⟨h1, h2, h3⟩ := ih h
      refine ⟨by omega, h2, fun u hu1 hu2 => ?_⟩
      by_cases hu : u = t + 1
      · subst hu; exact Bool.eq_false_iff.mpr hm
      · exact h3 u (by omega) hu2

inductive ScheduleSpec where
  | cron (e : CronExpr)
  | interval (ms : Nat)
  | once
deriving DecidableEq, Repr

inductive TaskStatus where
  | active
  | paused
  | completed
deriving DecidableEq, Repr

/-- One row of the `scheduled_tasks` table; `sched` is the parsed
`schedule_type`/`schedule_value` pair; instants are minutes (`Nat`). -/
structure ScheduledTask where
  id : String
  chatId : Int
  topicId : Nat
  folder : String
  prompt : String
  sched : ScheduleSpec
  contextMode : String
  nextRun : Option Nat
  lastRun : Option Nat
  lastResult : Option String
  status : TaskStatus
  createdAt : Nat
deriving DecidableEq, Repr

def findTask (tasks : List ScheduledTask) (id : String) : Option ScheduledTask :=
  tasks.find? (fun t => t.id == id)

/-- The `WHERE status = 'active' AND next_run IS NOT NULL AND next_run <= ?`
filter of `getDueTasks` (and the re-read `status !== 'active'` skip of the
scheduler loop, which re-checks the same row before running). -/
def isDue (now : Nat) (t : ScheduledTask) : Bool :=
  t.status == TaskStatus.active && t.nextRun.isSome &&
    decide (t.nextRun.getD 0 ≤ now)

def getDueTasks (now : Nat) (tasks : List ScheduledTask) : List ScheduledTask :=
  tasks.filter (isDue now)

/-- `updateTaskAfterRun` from `src/db.ts`: sets `next_run`, `last_run`,
`last_result`, and flips `status` to `completed` exactly when the new
`next_run` is NULL. -/
def updateTaskAfterRun (id : String) (nextRun : Option Nat) (lastResult : String)
    (now : Nat) (tasks : List ScheduledTask) : List ScheduledTask :=
  tasks.map (fun t => if t.id = id then
    { t with nextRun := nextRun, lastRun := some now, lastResult := some lastResult,
             status := if nextRun = none then TaskStatus.completed else t.status }
    else t)

def updateTaskStatus (id : String) (st : TaskStatus)
    (tasks : List ScheduledTask) : List ScheduledTask :=
  tasks.map (fun t => if t.id = id then { t with status := st } else t)

def deleteTask (id : String) (tasks : List ScheduledTask) : List ScheduledTask :=
  tasks.filter (fun t => !(t.id == id))

/-- The `next_run` computed by `runTask` after a run finishing at instant
`now`: cron → first occurrence strictly after `now` in the configured
timezone, interval → `now + ms`, once → NULL. -/
def taskNextRunAfter (fieldsOf : Nat → CronFields) (fuel : Nat)
    (sched : ScheduleSpec) (now : Nat) : Option Nat :=
  match sched with
  | .cron e => cronNextFrom fieldsOf e now fuel
  | .interval ms => some (now + ms)
  | .once => none

/-- Supervisor task state: the `scheduled_tasks` table plus the set of task
ids the supervisor has ever issued (ids are `task-<epoch_ms>-<nonce>`,
never reused). -/
structure SchedState where
  tasks : List ScheduledTask
  used : List String
deriving DecidableEq, Repr

/-- The task-mutating events of the system: a scheduler tick running one due
task (the instant `now` is the wall clock, also used right after the run
completes to compute the next occurrence), and the mailbox task actions
pause / resume / cancel / schedule. -/
inductive SchedEvent where
  | runDue (id : String) (now : Nat) (summary : String)
  | pause (id : String)
  | resume (id : String)
  | cancel (id : String)
  | create (t : ScheduledTask)
deriving DecidableEq, Repr

def schedStep (fieldsOf : Nat → CronFields) (fuel : Nat) (s : SchedState) :
    SchedEvent → Option SchedState
  | .runDue id now summary =>
    match findTask s.tasks id with
    | some t =>
      if isDue now t then
        let tasks' := updateTaskAfterRun id
          (taskNextRunAfter fieldsOf fuel t.sched now) summary now s.tasks
        some { s with tasks := tasks' }
      else none
    | none => none
  | .pause id =>
    match findTask s.tasks id with
    | some _ => some { s with tasks := updateTaskStatus id .paused s.tasks }
    | none => none
  | .resume id =>
    match findTask s.tasks id with
    | some _ => some { s with tasks := updateTaskStatus id .active s.tasks }
    | none => none
  | .cancel id =>
    match findTask s.tasks id with
    | some _ => some { s with tasks := deleteTask id s.tasks }
    | none => none
  | .create t =>
    if t.id ∈ s.used then none
    else some { tasks := s.tasks ++ [t], used := s.used ++ [t.id] }

def schedStepRel (fieldsOf : Nat → CronFields) (fuel : Nat) (a b : SchedState) : Prop :=
  ∃ ev, schedStep fieldsOf fuel a ev = some b

def schedReaches (fieldsOf : Nat → CronFields) (fuel : Nat) :
    SchedState → SchedState → Prop :=
  Relation.ReflTransGen (schedStepRel fieldsOf fuel)

/-- Well-formedness of the task state: every present id was issued, and ids
are unique (they are supervisor-generated primary keys). -/
def schedWF (s : SchedState) : Prop :=
  (∀ t ∈ s.tasks, t.id ∈ s.used) ∧ (s.tasks.map (fun t => t.id)).Nodup

theorem findTask_of_mem_nodup {tasks : List ScheduledTask} {t : ScheduledTask}
    (hnd : (tasks.map (fun u => u.id)).Nodup) (ht : t ∈ tasks) :
    findTask tasks t.id = some t := by
  induction tasks with
  | nil => simp at ht
  | cons a rest ih =>
    rw [List.map_cons, List.nodup_cons] at hnd
    by_cases hae : (a.id == t.id) = true
    · have haet : a.id = t.id := by simpa using hae
      rcases List.mem_cons.mp ht with h | hmem
      · subst h
        simp [findTask, List.find?_cons, hae]
      · exact absurd (List.mem_map.mpr ⟨t, hmem, haet.symm⟩) hnd.1
    · have htna : t ≠ a := by
        intro h; subst h; simp at hae
      have hmem : t ∈ rest := by
        rcases List.mem_cons.mp ht with h | h
        · exact absurd h htna
        · exact h
      rw [findTask, List.find?_cons]
      rw [Bool.eq_false_iff.mpr hae]
      exact ih hnd.2 hmem

theorem inv_updateTaskStatus {id id' : String} {st : TaskStatus}
    {tasks : List ScheduledTask}
    (hinv : ∀ t' ∈ tasks, t'.id = id → t'.nextRun = none) :
    ∀ t' ∈ updateTaskStatus id' st tasks, t'.id = id → t'.nextRun = none := by
  intro t' ht' hid'
  rcases List.mem_map.mp ht' with ⟨u, hu, hmap⟩
  by_cases hui : u.id = id'
  · rw [if_pos hui] at hmap
    subst hmap
    exact hinv u hu hid'
  · rw [if_neg hui] at hmap
    subst hmap
    exact hinv u hu hid'

theorem c3_inv_step {fieldsOf : Nat → CronFields} {fuel : Nat} {id : String}
    {a b : SchedState} {ev : SchedEvent}
    (hP : id ∈ a.used ∧ ∀ t' ∈ a.tasks, t'.id = id → t'.nextRun = none)
    (hstep : schedStep fieldsOf fuel a ev = some b) :
    id ∈ b.used ∧ ∀ t' ∈ b.tasks, t'.id = id → t'.nextRun = none := by
  obtain ⟨hused, hinv⟩ := hP
  cases ev with
  | runDue id' now summary =>
    rw [schedStep] at hstep
    cases hfind : findTask a.tasks id' with
    | none => rw [hfind] at hstep; exact absurd hstep (by simp)
    | some t =>
      rw [hfind] at hstep
      dsimp only [] at hstep
      by_cases hdue : isDue now t = true
      · rw [if_pos hdue] at hstep
        have hb := (Option.some.inj hstep).symm
        subst hb
        refine ⟨hused, ?_⟩
        intro t' ht' hid'
        rcases List.mem_map.mp ht' with ⟨u, hu, hmap⟩
        by_cases hui : u.id = id'
        · -- u is the task being run; then id' = id via hid', and the run
          -- guard contradicts the invariant (nextRun of id is none)
          exfalso
          rw [if_pos hui] at hmap
          have hid'' : u.id = id := by
            rw [← hid', ← hmap]
          have htid : t.id = id' := by
            have := List.find?_some hfind
            simpa using this
          have htmem : t ∈ a.tasks := List.mem_of_find?_eq_some hfind
          have htnone : t.nextRun = none := hinv t htmem (htid.trans (hui ▸ hid''))
          rw [isDue, htnone] at hdue
          simp at hdue
        · rw [if_neg hui] at hmap
          subst hmap
          exact hinv u hu hid'
      · rw [if_neg hdue] at hstep
        exact absurd hstep (by simp)
  | pause id' =>
    rw [schedStep] at hstep
    cases hfind : findTask a.tasks id' with
    | none => rw [hfind] at hstep; exact absurd hstep (by simp)
    | some t =>
      rw [hfind] at hstep
      dsimp only [] at hstep
      have hb := (Option.some.inj hstep).symm
      subst hb
      exact ⟨hused, inv_updateTaskStatus hinv⟩
  | resume id' =>
    rw [schedStep] at hstep
    cases hfind : findTask a.tasks id' with
    | none => rw [hfind] at hstep; exact absurd hstep (by simp)
    | some t =>
      rw [hfind] at hstep
      dsimp only [] at hstep
      have hb := (Option.some.inj hstep).symm
      subst hb
      exact ⟨hused, inv_updateTaskStatus hinv⟩
  | cancel id' =>
    rw [schedStep] at hstep
    cases hfind : findTask a.tasks id' with
    | none => rw [hfind] at hstep; exact absurd hstep (by simp)
    | some t =>
      rw [hfind] at hstep
      dsimp only [] at hstep
      have hb := (Option.some.inj hstep).symm
      subst hb
      refine ⟨hused, ?_⟩
      intro t' ht' hid'
      exact hinv t' (List.mem_of_mem_filter ht') hid'
  | create t =>
    rw [schedStep] at hstep
    by_cases hmem : t.id ∈ a.used
    · rw [if_pos hmem] at hstep
      exact absurd hstep (by simp)
    · rw [if_neg hmem] at hstep
      have hb := (Option.some.inj hstep).symm
      subst hb
      refine ⟨List.mem_append_left _ hused, ?_⟩
      intro t' ht' hid'
      rcases List.mem_append.mp ht' with h | h
      · exact hinv t' h hid'
      · have : t' = t := by simpa using h
        subst this
        exact absurd (hid' ▸ hused) hmem

/-- C3: a due task of type `once`, processed once by the scheduler, ends
with status `completed` and NULL `next_run`; and along every subsequent
trace of scheduler and mailbox events — even if a `resume_task` later sets
its status back to `active` while `next_run` stays NULL — its `next_run`
remains NULL and a further run step for it is impossible, because
`getDueTasks` requires `next_run IS NOT NULL`. -/
theorem c3_once_task_completes_and_never_reruns
    (fieldsOf : Nat → CronFields) (fuel : Nat) (s : SchedState) (t : ScheduledTask)
    (hwf : schedWF s) (ht : t ∈ s.tasks) (honce : t.sched = ScheduleSpec.once)
    (now : Nat) (summary : String) (s₁ : SchedState)
    (hstep : schedStep fieldsOf fuel s (.runDue t.id now summary) = some s₁) :
    (∀ t' ∈ s₁.tasks, t'.id = t.id → t'.status = TaskStatus.completed ∧
      t'.nextRun = none) ∧
    ∀ s₂, schedReaches fieldsOf fuel s₁ s₂ →
      (∀ t' ∈ s₂.tasks, t'.id = t.id → t'.nextRun = none) ∧
      ∀ now' summary',
        schedStep fieldsOf fuel s₂ (SchedEvent.runDue t.id now' summary') = none := by
  have hfind : findTask s.tasks t.id = some t := findTask_of_mem_nodup hwf.2 ht
  rw [schedStep, hfind] at hstep
  dsimp only [] at hstep
  by_cases hdue : isDue now t = true
  case neg => rw [if_neg hdue] at hstep; exact absurd hstep (by simp)
  rw [if_pos hdue] at hstep
  have hs₁ := (Option.some.inj hstep).symm
  have hnone : taskNextRunAfter fieldsOf fuel t.sched now = none := by
    rw [honce]; rfl
  have part_a : ∀ t' ∈ s₁.tasks, t'.id = t.id →
      t'.status = TaskStatus.completed ∧ t'.nextRun = none := by
    intro t' ht' hid'
    rw [hs₁] at ht'
    dsimp only [updateTaskAfterRun] at ht'
    rcases List.mem_map.mp ht' with ⟨u, _, hmap⟩
    by_cases hui : u.id = t.id
    · rw [if_pos hui, hnone] at hmap
      subst hmap
      exact ⟨rfl, rfl⟩
    · rw [if_neg hui] at hmap
      subst hmap
      exact absurd hid' hui
  refine ⟨part_a, ?_⟩
  intro s₂ hreach
  have hinv : t.id ∈ s₂.used ∧ ∀ t' ∈ s₂.tasks, t'.id = t.id → t'.nextRun = none := by
    induction hreach with
    | refl =>
      refine ⟨?_, fun t' ht' hid' => (part_a t' ht' hid').2⟩
      rw [hs₁]
      exact hwf.1 t ht
    | tail hab hbc ih =>
      rcases hbc with ⟨ev, hstep'⟩
      exact c3_inv_step ih hstep'
  refine ⟨hinv.2, ?_⟩
  intro now' summary'
  rw [schedStep]
  cases hf : findTask s₂.tasks t.id with
  | none => rfl
  | some u =>
    dsimp only []
    have hu_mem := List.mem_of_find?_eq_some hf
    have hu_id : u.id = t.id := by simpa using List.find?_some hf
    have hu_none : u.nextRun = none := hinv.2 u hu_mem hu_id
    rw [if_neg]
    rw [isDue, hu_none]
    simp

theorem c3_witness :
    schedStep (fun _ => ⟨0, 0, 1, 1, 0⟩) 5
      ⟨[⟨"t1", 100, 0, "main", "p", .once, "isolated", none, some 10, some "x",
        .completed, 0⟩], ["t1"]⟩
      (SchedEvent.runDue "t1" 99 "y") = none :=
  ((c3_once_task_completes_and_never_reruns (fun _ => ⟨0, 0, 1, 1, 0⟩) 5
      ⟨[⟨"t1", 100, 0, "main", "p", .once, "isolated", some 10, none, none,
        .active, 0⟩], ["t1"]⟩
      ⟨"t1", 100, 0, "main", "p", .once, "isolated", some 10, none, none,
        .active, 0⟩
      ⟨by decide, by decide⟩ (by decide) rfl 10 "x"
      ⟨[⟨"t1", 100, 0, "main", "p", .once, "isolated", none, some 10, some "x",
        .completed, 0⟩], ["t1"]⟩
      (by decide)).2 _ Relation.ReflTransGen.refl).2 99 "y"

/-- C4: when the scheduler runs a task of type `cron` and the cron search
succeeds, the `next_run` stored by `updateTaskAfterRun` is exactly the first
occurrence of the task's cron expression strictly after the instant `now`
at which the run completed, evaluated in the configured timezone's calendar
(`fieldsOf`): it lies strictly after `now`, matches the expression, and no
instant strictly between `now` and it matches. -/
theorem c4_cron_next_run_first_after
    (fieldsOf : Nat → CronFields) (fuel : Nat) (s : SchedState) (t : ScheduledTask)
    (e : CronExpr) (now t' : Nat) (summary : String) (s₁ : SchedState)
    (hwf : schedWF s) (ht : t ∈ s.tasks) (hcron : t.sched = ScheduleSpec.cron e)
    (hstep : schedStep fieldsOf fuel s (.runDue t.id now summary) = some s₁)
    (hnext : cronNextFrom fieldsOf e now fuel = some t') :
    (∀ u ∈ s₁.tasks, u.id = t.id → u.nextRun = some t') ∧
    now < t' ∧ cronMatches e (fieldsOf t') = true ∧
    ∀ u, now < u → u < t' → cronMatches e (fieldsOf u) = false := by
  have hfind : findTask s.tasks t.id = some t := findTask_of_mem_nodup hwf.2 ht
  rw [schedStep, hfind] at hstep
  dsimp only [] at hstep
  by_cases hdue : isDue now t = true
  case neg => rw [if_neg hdue] at hstep; exact absurd hstep (by simp)
  rw [if_pos hdue] at hstep
  have hs₁ := (Option.some.inj hstep).symm
  have hcomp : taskNextRunAfter fieldsOf fuel t.sched now = some t' := by
    rw [hcron]; exact hnext
  obtain ⟨h1, h2, h3⟩ := cronNextFrom_first_after hnext
  refine ⟨?_, h1, h2, h3⟩
  intro u hu hid'
  rw [hs₁] at hu
  dsimp only [updateTaskAfterRun] at hu
  rcases List.mem_map.mp hu with ⟨v, _, hmap⟩
  by_cases hvi : v.id = t.id
  · rw [if_pos hvi, hcomp] at hmap
    subst hmap
    rfl
  · rw [if_neg hvi] at hmap
    subst hmap
    exact absurd hid' hvi

theorem c4_witness :
    (∀ u ∈ ([⟨"t1", 100, 0, "main", "p", .cron ⟨some [0], none, none, none, none⟩,
        "isolated", some 60, some 5, some "x", .active, 0⟩] : List ScheduledTask),
      u.id = "t1" → u.nextRun = some 60) ∧
    5 < 60 ∧
    cronMatches ⟨some [0], none, none, none, none⟩
      ((fun n => ⟨n % 60, n / 60 % 24, 1, 1, 0⟩) 60) = true ∧
    ∀ u, 5 < u → u < 60 → cronMatches ⟨some [0], none, none, none, none⟩
      ((fun n => ⟨n % 60, n / 60 % 24, 1, 1, 0⟩) u) = false :=
  c4_cron_next_run_first_after (fun n => ⟨n % 60, n / 60 % 24, 1, 1, 0⟩) 60
    ⟨[⟨"t1", 100, 0, "main", "p", .cron ⟨some [0], none, none, none, none⟩,
      "isolated", some 5, none, none, .active, 0⟩], ["t1"]⟩
    ⟨"t1", 100, 0, "main", "p", .cron ⟨some [0], none, none, none, none⟩,
      "isolated", some 5, none, none, .active, 0⟩
    ⟨some [0], none, none, none, none⟩ 5 60 "x"
    ⟨[⟨"t1", 100, 0, "main", "p", .cron ⟨some [0], none, none, none, none⟩,
      "isolated", some 60, some 5, some "x", .active, 0⟩], ["t1"]⟩
    ⟨by decide, by decide⟩ (by decide) rfl (by decide) (by decide)

/-! ## Worker Pool (`src/container-pool.ts`, claim C6)

The pool is modelled as a labelled transition system whose events are the
synchronous (event-loop-atomic) segments of `runContainer`,
`sendToWarmContainer`, the stdout/close handlers, the timeout handler and
the idle reaper.  `ready` is set once when the readiness marker arrives and
is never cleared; `processing` brackets exactly one in-flight request. -/

structure WarmEntry where
  ready : Bool
  processing : Bool
deriving DecidableEq, Repr

/-- `containers : Map<folder, WarmContainer>` as an association list. -/
abbrev PoolState := List (String × WarmEntry)

/-- JS `Map.get`. -/
def lookupPool : PoolState → String → Option WarmEntry
  | [], _ => none
  | kv :: rest, f => if kv.1 = f then some kv.2 else lookupPool rest f

/-- JS `Map.set`: replace in place, or append when absent. -/
def setPool : PoolState → String → WarmEntry → PoolState
  | [], f, e => [(f, e)]
  | kv :: rest, f, e => if kv.1 = f then (f, e) :: rest else kv :: setPool rest f e

/-- JS `Map.delete`. -/
def removePool (s : PoolState) (f : String) : PoolState :=
  s.filter (fun kv => !(kv.1 == f))

inductive Decision where
  | warm
  | cold
  | spawnPath
deriving DecidableEq, Repr

/-- The synchronous branch structure at the top of `runContainer`: warm pool
disabled → cold; existing entry ready and not processing → warm; existing
entry processing → cold; otherwise attempt a warm spawn. -/
def runDecision (warmDisabled : Bool) (e : Option WarmEntry) : Decision :=
  if warmDisabled then .cold
  else match e with
    | some en =>
      if en.ready && !en.processing then .warm
      else if en.processing then .cold
      else .spawnPath
    | none => .spawnPath

/-- One event-loop segment each.  `spawnDone` models the segment after
`spawnWarmContainer` saw the readiness marker: it `set`s the entry
(overwriting any concurrent insertion, as `Map.set` does) and the same
segment immediately marks it processing for the pending request. -/
inductive PoolEvent where
  | reqWarm (f : String)
  | reqCold (f : String)
  | spawnDone (f : String)
  | spawnFail (f : String)
  | complete (f : String)
  | timeoutKill (f : String)
  | exitRemove (f : String)
  | reapIdle (f : String)
deriving DecidableEq, Repr

def poolStep (s : PoolState) : PoolEvent → Option PoolState
  | .reqWarm f =>
    match lookupPool s f with
    | some en =>
      if en.ready && !en.processing then
        some (setPool s f { en with processing := true })
      else none
    | none => none
  | .reqCold f =>
    if runDecision false (lookupPool s f) = .cold then some s else none
  | .spawnDone f => some (setPool s f { ready := true, processing := true })
  | .spawnFail _ => some s
  | .complete f =>
    match lookupPool s f with
    | some en =>
      if en.processing then some (setPool s f { en with processing := false })
      else none
    | none => none
  | .timeoutKill f =>
    match lookupPool s f with
    | some en => if en.processing then some (removePool s f) else none
    | none => none
  | .exitRemove f =>
    match lookupPool s f with
    | some _ => some (removePool s f)
    | none => none
  | .reapIdle f =>
    match lookupPool s f with
    | some en => if !en.processing then some (removePool s f) else none
    | none => none

def poolStepRel (a b : PoolState) : Prop :=
  ∃ ev, poolStep a ev = some b

def poolReaches : PoolState → PoolState → Prop :=
  Relation.ReflTransGen poolStepRel

def poolKeysNodup (s : PoolState) : Prop :=
  (s.map Prod.fst).Nodup

theorem lookupPool_setPool_self (s : PoolState) (f : String) (e : WarmEntry) :
    lookupPool (setPool s f e) f = some e := by
  induction s with
  | nil => simp [setPool, lookupPool]
  | cons kv rest ih =>
    rw [setPool]
    by_cases hk : kv.1 = f
    · rw [if_pos hk, lookupPool, if_pos rfl]
    · rw [if_neg hk, lookupPool, if_neg hk]
      exact ih

theorem mem_keys_setPool {s : PoolState} {f g : String} {e : WarmEntry}
    (h : g ∈ (setPool s f e).map Prod.fst) : g ∈ s.map Prod.fst ∨ g = f := by
  induction s with
  | nil => simp [setPool] at h; exact Or.inr h
  | cons kv rest ih =>
    rw [setPool] at h
    by_cases hk : kv.1 = f
    · rw [if_pos hk] at h
      rcases List.mem_cons.mp h with h1 | h1
      · exact Or.inr h1
      · exact Or.inl (List.mem_cons_of_mem _ h1)
    · rw [if_neg hk] at h
      rw [List.map_cons] at h
      rcases List.mem_cons.mp h with h1 | h1
      · exact Or.inl (by rw [List.map_cons, h1]; exact List.mem_cons_self _ _)
      · rcases ih h1 with h2 | h2
        · exact Or.inl (List.mem_cons_of_mem _ h2)
        · exact Or.inr h2

theorem poolKeysNodup_setPool {s : PoolState} {f : String} {e : WarmEntry}
    (h : poolKeysNodup s) : poolKeysNodup (setPool s f e) := by
  induction s with
  | nil => simp [setPool, poolKeysNodup]
  | cons kv rest ih =>
    rw [poolKeysNodup, List.map_cons, List.nodup_cons] at h
    rw [poolKeysNodup, setPool]
    by_cases hk : kv.1 = f
    · rw [if_pos hk, List.map_cons, List.nodup_cons]
      exact ⟨by rw [← hk]; exact h.1, h.2⟩
    · rw [if_neg hk, List.map_cons, List.nodup_cons]
      refine ⟨?_, ih h.2⟩
      intro hcontra
      rcases mem_keys_setPool hcontra with h1 | h1
      · exact h.1 h1
      · exact hk h1

theorem poolKeysNodup_removePool {s : PoolState} {f : String}
    (h : poolKeysNodup s) : poolKeysNodup (removePool s f) :=
  List.Nodup.sublist ((List.filter_sublist s).map Prod.fst) h

theorem poolKeysNodup_step {s s' : PoolState} {ev : PoolEvent}
    (h : poolKeysNodup s) (hstep : poolStep s ev = some s') : poolKeysNodup s' := by
  cases ev with
  | reqWarm f =>
    rw [poolStep] at hstep
    cases hl : lookupPool s f with
    | none => rw [hl] at hstep; exact absurd hstep (by simp)
    | some en =>
      rw [hl] at hstep
      dsimp only [] at hstep
      by_cases hg : (en.ready && !en.processing) = true
      · rw [if_pos hg] at hstep
        rw [← Option.some.inj hstep]
        exact poolKeysNodup_setPool h
      · rw [if_neg hg] at hstep; exact absurd hstep (by simp)
  | reqCold f =>
    rw [poolStep] at hstep
    by_cases hg : runDecision false (lookupPool s f) = Decision.cold
    · rw [if_pos hg] at hstep; rw [← Option.some.inj hstep]; exact h
    · rw [if_neg hg] at hstep; exact absurd hstep (by simp)
  | spawnDone f =>
    rw [poolStep] at hstep
    rw [← Option.some.inj hstep]
    exact poolKeysNodup_setPool h
  | spawnFail f =>
    rw [poolStep] at hstep
    rw [← Option.some.inj hstep]
    exact h
  | complete f =>
    rw [poolStep] at hstep
    cases hl : lookupPool s f with
    | none => rw [hl] at hstep; exact absurd hstep (by simp)
    | some en =>
      rw [hl] at hstep
      dsimp only [] at hstep
      by_cases hg : en.processing = true
      · rw [if_pos hg] at hstep
        rw [← Option.some.inj hstep]
        exact poolKeysNodup_setPool h
      · rw [if_neg hg] at hstep; exact absurd hstep (by simp)
  | timeoutKill f =>
    rw [poolStep] at hstep
    cases hl : lookupPool s f with
    | none => rw [hl] at hstep; exact absurd hstep (by simp)
    | some en =>
      rw [hl] at hstep
      dsimp only [] at hstep
      by_cases hg : en.processing = true
      · rw [if_pos hg] at hstep
        rw [← Option.some.inj hstep]
        exact poolKeysNodup_removePool h
      · rw [if_neg hg] at hstep; exact absurd hstep (by simp)
  | exitRemove f =>
    rw [poolStep] at hstep
    cases hl : lookupPool s f with
    | none => rw [hl] at hstep; exact absurd hstep (by simp)
    | some en =>
      rw [hl] at hstep
      dsimp only [] at hstep
      rw [← Option.some.inj hstep]
      exact poolKeysNodup_removePool h
  | reapIdle f =>
    rw [poolStep] at hstep
    cases hl : lookupPool s f with
    | none => rw [hl] at hstep; exact absurd hstep (by simp)
    | some en =>
      rw [hl] at hstep
      dsimp only [] at hstep
      by_cases hg : (!en.processing) = true
      · rw [if_pos hg] at hstep
        rw [← Option.some.inj hstep]
        exact poolKeysNodup_removePool h
      · rw [if_neg hg] at hstep; exact absurd hstep (by simp)

/-- C6: in every reachable pool state, (i) the pool holds at most one warm
worker per workspace folder (the folder keys are duplicate-free, and
`Map.set` keeps them so even when concurrent spawns overlap); (ii) a run
request is dispatched to the warm worker only when it is `ready` and not
`processing`, and the same atomic segment marks it `processing` — so at
most one request is in flight on a warm worker at any instant; (iii) while
the warm worker of a folder is `processing`, the dispatch decision for any
further run request on that folder is the cold path. -/
theorem c6_warm_pool_exclusive (s : PoolState) (hreach : poolReaches [] s) :
    poolKeysNodup s ∧
    (∀ f en s', lookupPool s f = some en →
      poolStep s (PoolEvent.reqWarm f) = some s' →
      en.ready = true ∧ en.processing = false ∧
      lookupPool s' f = some ⟨true, true⟩) ∧
    (∀ f en, lookupPool s f = some en → en.processing = true →
      runDecision false (lookupPool s f) = Decision.cold) := by
  refine ⟨?_, ?_, ?_⟩
  · induction hreach with
    | refl => simp [poolKeysNodup]
    | tail hab hbc ih =>
      rcases hbc with ⟨ev, hstep⟩
      exact poolKeysNodup_step ih hstep
  · intro f en s' hl hstep
    rw [poolStep, hl] at hstep
    dsimp only [] at hstep
    by_cases hg : (en.ready && !en.processing) = true
    · rw [if_pos hg] at hstep
      rw [Bool.and_eq_true, Bool.not_eq_true'] at hg
      refine ⟨hg.1, hg.2, ?_⟩
      rw [← Option.some.inj hstep, lookupPool_setPool_self]
      rw [hg.1]
    · rw [if_neg hg] at hstep; exact absurd hstep (by simp)
  · intro f en hl hp
    unfold runDecision
    rw [if_neg (by simp), hl]
    dsimp only []
    rw [if_neg (by rw [hp]; simp), if_pos hp]

theorem c6_witness :
    poolKeysNodup [("main", (⟨true, false⟩ : WarmEntry))] :=
  (c6_warm_pool_exclusive [("main", ⟨true, false⟩)]
    (Relation.ReflTransGen.tail
      (Relation.ReflTransGen.single
        (show poolStepRel [] [("main", ⟨true, true⟩)] from
          ⟨PoolEvent.spawnDone "main", by decide⟩))
      (show poolStepRel [("main", ⟨true, true⟩)] [("main", ⟨true, false⟩)] from
        ⟨PoolEvent.complete "main", by decide⟩))).1

/-! ## Session Router (`session-manager.ts`, `db.ts` topics; claims C8 and C10) -/

/-- `GLOBAL_FOLDER` from `src/config.ts`. -/
def globalFolder : String := "global"

def isMainFolder (folder : String) : Bool :=
  folder == mainFolder

def getTopic (topics : List TopicRow) (chatId : Int) (topicId : Nat) : Option TopicRow :=
  topics.find? (fun t => t.chatId == chatId && t.topicId == topicId)

def getTopicByFolder (topics : List TopicRow) (folder : String) : Option TopicRow :=
  topics.find? (fun t => t.folder == folder)

/-- `upsertTopic` from `src/db.ts`: `ON CONFLICT(chat_id, topic_id) DO
UPDATE SET topic_name, folder` (trigger_mode defaults to `mention`). -/
def upsertTopic (topics : List TopicRow) (chatId : Int) (topicId : Nat)
    (topicName folder : String) : List TopicRow :=
  if (getTopic topics chatId topicId).isSome then
    topics.map (fun t => if t.chatId = chatId ∧ t.topicId = topicId then
      { t with topicName := topicName, folder := folder } else t)
  else topics ++ [⟨chatId, topicId, topicName, folder, "mention"⟩]

/-- The `while (getTopicByFolder(folder))` collision loop of
`generateFolderName`: candidates `base`, `base-1`, `base-2`, …; `fuel`
bounds the search (the source loop terminates because topics are finite). -/
def genFolderLoop (topics : List TopicRow) (baseName : String) :
    Nat → Nat → Option String
  | _, 0 => none
  | counter, fuel + 1 =>
    let folder := if counter = 0 then baseName else baseName ++ "-" ++ toString counter
    if (getTopicByFolder topics folder).isSome then
      genFolderLoop topics baseName (counter + 1) fuel
    else some folder

def generateFolderName (topics : List TopicRow) (chatTitle topicName : String)
    (chatId : Int) (topicId : Nat) (fuel : Nat) : Option String :=
  let chatSlug := slugify chatTitle
  let topicSlug := if topicId = 0 then "" else slugify topicName
  let baseName₀ := if topicSlug ≠ "" then chatSlug ++ "-" ++ topicSlug else chatSlug
  let baseName := if baseName₀ = "" then "chat-" ++ toString chatId else baseName₀
  genFolderLoop topics baseName 0 fuel

/-- `getSessionFolder`: return the folder already assigned to the (chat,
topic) pair, or generate a fresh unique one and persist the topic row. -/
def getSessionFolder (topics : List TopicRow) (chatId : Int) (topicId : Nat)
    (chatTitle topicName : String) (fuel : Nat) : Option (String × List TopicRow) :=
  match getTopic topics chatId topicId with
  | some existing => some (existing.folder, topics)
  | none =>
    match generateFolderName topics chatTitle topicName chatId topicId fuel with
    | some folder => some (folder, upsertTopic topics chatId topicId topicName folder)
    | none => none

/-- Router well-formedness (the table's primary key and the folder
uniqueness invariant of the spec). -/
def routerWF (topics : List TopicRow) : Prop :=
  (topics.map (fun t => (t.chatId, t.topicId))).Nodup ∧
  (topics.map (fun t => t.folder)).Nodup

theorem find?_eq_of_key {α κ : Type} [DecidableEq κ] {keyOf : α → κ} {p : α → Bool}
    {x : α} (hp : ∀ y, p y = true ↔ keyOf y = keyOf x) :
    ∀ {l : List α}, (l.map keyOf).Nodup → x ∈ l → l.find? p = some x := by
  intro l
  induction l with
  | nil => intro _ hx; simp at hx
  | cons a rest ih =>
    intro hnd hx
    rw [List.map_cons, List.nodup_cons] at hnd
    by_cases hpa : p a = true
    · have hka : keyOf a = keyOf x := (hp a).mp hpa
      rcases List.mem_cons.mp hx with h | hmem
      · subst h
        simp [List.find?_cons, hpa]
      · exact absurd (List.mem_map.mpr ⟨x, hmem, hka.symm⟩) hnd.1
    · have hxa : x ≠ a := by
        intro h; subst h
        exact hpa ((hp x).mpr rfl)
      have hmem : x ∈ rest := by
        rcases List.mem_cons.mp hx with h | h
        · exact absurd h hxa
        · exact h
      rw [List.find?_cons, Bool.eq_false_iff.mpr hpa]
      exact ih hnd.2 hmem

theorem genFolderLoop_fresh {topics : List TopicRow} {baseName folder : String} :
    ∀ {counter fuel : Nat}, genFolderLoop topics baseName counter fuel = some folder →
      getTopicByFolder topics folder = none := by
  intro counter fuel
  induction fuel generalizing counter with
  | zero => intro h; simp [genFolderLoop] at h
  | succ n ih =>
    intro h
    rw [genFolderLoop] at h
    by_cases hex : (getTopicByFolder topics
        (if counter = 0 then baseName else baseName ++ "-" ++ toString counter)).isSome = true
    · rw [if_pos hex] at h
      exact ih h
    · rw [if_neg hex] at h
      have : (if counter = 0 then baseName else baseName ++ "-" ++ toString counter)
          = folder := by injection h
      rw [← this]
      exact Option.not_isSome_iff_eq_none.mp hex

/-- C8: assuming the router's tables satisfy their primary-key and
folder-uniqueness invariants, `getSessionFolder` (i) preserves both
invariants, (ii) assigns a folder whose `topic_by_folder` lookup returns
exactly the requested (chat, topic) pair, and (iii) is persistent: once
made, a repeated call returns the same folder and leaves the state
unchanged — together, folders are a bijection onto the observed pairs. -/
theorem c8_router_folder_bijection
    (topics : List TopicRow) (chatId : Int) (topicId : Nat)
    (chatTitle topicName : String) (fuel : Nat) (folder : String)
    (topics' : List TopicRow)
    (hwf : routerWF topics)
    (h : getSessionFolder topics chatId topicId chatTitle topicName fuel
      = some (folder, topics')) :
    routerWF topics' ∧
    (∃ tp, getTopicByFolder topics' folder = some tp ∧
      tp.chatId = chatId ∧ tp.topicId = topicId) ∧
    getSessionFolder topics' chatId topicId chatTitle topicName fuel
      = some (folder, topics') := by
  rw [getSessionFolder] at h
  cases hget : getTopic topics chatId topicId with
  | some existing =>
    rw [hget] at h
    dsimp only [] at h
    have hpair := Option.some.inj h
    have hfolder : existing.folder = folder := congrArg Prod.fst hpair
    have htopics : topics = topics' := congrArg Prod.snd hpair
    subst htopics
    have hmem : existing ∈ topics := List.mem_of_find?_eq_some hget
    have hcid : existing.chatId = chatId ∧ existing.topicId = topicId := by
      simpa using List.find?_some hget
    refine ⟨hwf, ⟨existing, ?_, hcid.1, hcid.2⟩, ?_⟩
    · rw [← hfolder, getTopicByFolder]
      exact @find?_eq_of_key TopicRow String _ (fun t => t.folder) _ existing
        (fun y => by simp) topics hwf.2 hmem
    · rw [getSessionFolder, hget]
      dsimp only []
      rw [hfolder]
  | none =>
    rw [hget] at h
    dsimp only [] at h
    cases hgen : generateFolderName topics chatTitle topicName chatId topicId fuel with
    | none => rw [hgen] at h; exact absurd h (by simp)
    | some f₀ =>
      rw [hgen] at h
      dsimp only [] at h
      have hpair := Option.some.inj h
      have hf : f₀ = folder := congrArg Prod.fst hpair
      subst hf
      have ht' : upsertTopic topics chatId topicId topicName f₀ = topics' :=
        congrArg Prod.snd hpair
      have hfresh : getTopicByFolder topics f₀ = none := genFolderLoop_fresh hgen
      have hup : upsertTopic topics chatId topicId topicName f₀
          = topics ++ [⟨chatId, topicId, topicName, f₀, "mention"⟩] := by
        rw [upsertTopic, if_neg (by rw [hget]; simp)]
      rw [hup] at ht'
      subst ht'
      have hkeyfresh := List.find?_eq_none.mp hget
      have hfolderfresh := List.find?_eq_none.mp hfresh
      have hgettop : getTopic (topics ++ [⟨chatId, topicId, topicName, f₀, "mention"⟩])
          chatId topicId = some ⟨chatId, topicId, topicName, f₀, "mention"⟩ := by
        rw [getTopic, List.find?_append]
        rw [show topics.find? (fun t => t.chatId == chatId && t.topicId == topicId)
          = none from hget]
        simp [List.find?_cons]
      refine ⟨⟨?_, ?_⟩, ⟨⟨chatId, topicId, topicName, f₀, "mention"⟩, ?_, rfl, rfl⟩, ?_⟩
      · rw [List.map_append, List.nodup_append]
        refine ⟨hwf.1, by simp, ?_⟩
        intro a ha hb
        rcases List.mem_map.mp ha with ⟨t, htm, hkey⟩
        have : a = ((chatId, topicId) : Int × Nat) := by simpa using hb
        subst this
        have : t.chatId = chatId ∧ t.topicId = topicId := by
          constructor
          · exact congrArg Prod.fst hkey
          · exact congrArg Prod.snd hkey
        exact hkeyfresh t htm (by simp [this.1, this.2])
      · rw [List.map_append, List.nodup_append]
        refine ⟨hwf.2, by simp, ?_⟩
        intro a ha hb
        rcases List.mem_map.mp ha with ⟨t, htm, hkey⟩
        have : a = f₀ := by simpa using hb
        subst this
        exact hfolderfresh t htm (by simp [hkey])
      · rw [getTopicByFolder, List.find?_append]
        rw [show topics.find? (fun t => t.folder == f₀) = none from hfresh]
        simp [List.find?_cons]
      · rw [getSessionFolder, hgettop]

theorem c8_witness :
    routerWF [⟨100, 0, "General", "family-chat", "mention"⟩] ∧
    (∃ tp, getTopicByFolder [⟨100, 0, "General", "family-chat", "mention"⟩] "family-chat"
        = some tp ∧ tp.chatId = 100 ∧ tp.topicId = 0) ∧
    getSessionFolder [⟨100, 0, "General", "family-chat", "mention"⟩] 100 0
        "Family Chat" "General" 1
      = some ("family-chat", [⟨100, 0, "General", "family-chat", "mention"⟩]) :=
  c8_router_folder_bijection [] 100 0 "Family Chat" "General" 1 "family-chat"
    [⟨100, 0, "General", "family-chat", "mention"⟩]
    (by simp [routerWF]) (by decide)

/-! ## Trigger check and mount planning (claim C10) -/

/-- `text.toLowerCase().includes(pattern.toLowerCase())` (ASCII case fold,
as in the source's trigger check). -/
def containsSeq (needle : List Char) : List Char → Bool
  | [] => needle.isEmpty
  | c :: rest => needle.isPrefixOf (c :: rest) || containsSeq needle rest

def containsCI (pat text : String) : Bool :=
  containsSeq (pat.data.map jsLowerChar) (text.data.map jsLowerChar)

/-- `checkTrigger` from the Telegram client: the main folder always fires;
otherwise the registered trigger mode decides, with `mention` testing a
case-insensitive substring of the pattern (default `@<assistant_name>`). -/
def checkTrigger (text : String) (trigger : TriggerConfig) (folder : String)
    (assistantName : String) : Bool :=
  if isMainFolder folder then true
  else match trigger.mode with
    | .always => true
    | .disabled => false
    | .mention =>
      let pattern := trigger.mentionPattern.getD ("@" ++ assistantName)
      containsCI pattern text

structure VolumeMount where
  hostPath : String
  containerPath : String
  readonly : Bool
deriving DecidableEq, Repr

/-- The filesystem observations `buildVolumeMounts` makes (`fs.existsSync`
probes and whether the whitelist-filtered `.env` lines are non-empty). -/
structure FsView where
  sharedClaudeMdExists : Bool
  globalDirExists : Bool
  filteredEnvNonempty : Bool
deriving DecidableEq, Repr

/-- `buildVolumeMounts` from `src/container-pool.ts` as a pure function of
the path configuration, the filesystem view and the already-validated
additional mounts (`validateAdditionalMounts` lives in `mount-security.ts`,
outside the given sources; its output list is a parameter here). -/
def buildVolumeMounts (projectRoot groupsDir dataDir : String)
    (folder chatType : String) (isMain : Bool) (fs : FsView)
    (validatedExtra : List VolumeMount) : List VolumeMount :=
  let sharedFolder := if chatType == "private" then mainFolder else globalFolder
  let base :=
    if isMain then
      [⟨projectRoot, "/workspace/project", false⟩,
       ⟨groupsDir ++ "/" ++ folder, "/workspace/group", false⟩]
    else
      [⟨groupsDir ++ "/" ++ folder, "/workspace/group", false⟩] ++
      (if fs.sharedClaudeMdExists then
        [⟨groupsDir ++ "/" ++ sharedFolder ++ "/CLAUDE.md",
          "/workspace/group/CLAUDE.md", true⟩] else []) ++
      (if fs.globalDirExists then
        [⟨groupsDir ++ "/" ++ globalFolder, "/workspace/global", true⟩] else [])
  base ++
    [⟨dataDir ++ "/sessions/" ++ folder ++ "/.claude", "/home/node/.claude", false⟩,
     ⟨dataDir ++ "/ipc/" ++ folder, "/workspace/ipc", false⟩] ++
    (if fs.filteredEnvNonempty then
      [⟨dataDir ++ "/env", "/workspace/env-dir", true⟩] else []) ++
    validatedExtra

/-- C10: the router does not reserve the privileged folder name.  If a
chat's title slugifies to `main` (topic id 0, no topic yet for the pair and
no topic owning the folder `main`), `getSessionFolder` hands out the
workspace folder `main`; every message in a `main`-folder conversation
passes the trigger check regardless of trigger mode or content; and a
worker launched as main gets the project root mounted read-write at
`/workspace/project` as its first bind mount. -/
theorem c10_main_folder_not_reserved
    (topics : List TopicRow) (chatId : Int) (chatTitle topicName : String) (fuel : Nat)
    (hslug : slugify chatTitle = "main")
    (hkey : getTopic topics chatId 0 = none)
    (hfolder : getTopicByFolder topics "main" = none) :
    getSessionFolder topics chatId 0 chatTitle topicName (fuel + 1)
      = some ("main", topics ++ [⟨chatId, 0, topicName, "main", "mention"⟩]) ∧
    isMainFolder "main" = true ∧
    (∀ text trigger assistantName,
      checkTrigger text trigger "main" assistantName = true) ∧
    (∀ projectRoot groupsDir dataDir chatType fs extra,
      (buildVolumeMounts projectRoot groupsDir dataDir "main" chatType true fs
        extra).head? = some ⟨projectRoot, "/workspace/project", false⟩) := by
  refine ⟨?_, rfl, ?_, ?_⟩
  · rw [getSessionFolder, hkey]
    dsimp only []
    have hgen : generateFolderName topics chatTitle topicName chatId 0 (fuel + 1)
        = some "main" := by
      simp [generateFolderName, hslug]
      rw [genFolderLoop]
      simp [hfolder]
    rw [hgen]
    dsimp only []
    rw [upsertTopic, if_neg (by rw [hkey]; simp)]
  · intro text trigger assistantName
    rfl
  · intro projectRoot groupsDir dataDir chatType fs extra
    rfl

theorem c10_witness :
    getSessionFolder [] 100 0 "Main" "General" 1
      = some ("main", [⟨100, 0, "General", "main", "mention"⟩]) ∧
    isMainFolder "main" = true ∧
    (∀ text trigger assistantName,
      checkTrigger text trigger "main" assistantName = true) ∧
    (∀ projectRoot groupsDir dataDir chatType fs extra,
      (buildVolumeMounts projectRoot groupsDir dataDir "main" chatType true fs
        extra).head? = some ⟨projectRoot, "/workspace/project", false⟩) :=
  c10_main_folder_not_reserved [] 100 "Main" "General" 0 (by decide) rfl rfl
